import Mathlib

/-!
Verification development for the litedoc parser (crates/litedoc-core).

The Rust sources are shallowly embedded in Lean:

* Input is a `List Char`, one entry per byte of the original UTF-8 input.
  All structural syntax of the format is ASCII, and every concrete input
  appearing in this file is ASCII, so one `Char` per byte is exact there.
* Byte offsets (Rust `usize`/`u32`) are `Nat`.  The Rust code casts
  offsets with `as u32`; for inputs shorter than 2^32 bytes the cast is
  the identity, which is how it is modelled here.
* `&mut` state is threaded explicitly; the error collector is modelled
  writer-style (each parsing function returns the errors it records,
  in order).
* Loops that consume one lexed line per iteration are structural
  recursions over the list of lines.  The sole loop that does not
  always consume input (`Parser::parse_blocks`) takes explicit fuel and
  returns `none` when the fuel is exhausted, which models divergence of
  the Rust loop.
* `Cow<str>` payloads are plain `List Char` (the borrowed/owned
  distinction is not observable in any claim).
-/

namespace Litedoc

/-- Whitespace recognised by Rust `char::is_whitespace`, restricted to the
ASCII range (U+0009..U+000D and U+0020).  Non-ASCII whitespace is outside
the scope of this development. -/
def isWs (c : Char) : Bool :=
  c = ' ' ∨ c = '\t' ∨ c = '\n' ∨ c = '\x0b' ∨ c = '\x0c' ∨ c = '\r'

/-- Model of Rust `str::trim_start` (ASCII whitespace). -/
def trimStart (l : List Char) : List Char :=
  l.dropWhile isWs

/-- Model of Rust `str::trim_end` (ASCII whitespace). -/
def trimEnd (l : List Char) : List Char :=
  (l.reverse.dropWhile isWs).reverse

/-- Model of Rust `str::trim` (ASCII whitespace). -/
def trim (l : List Char) : List Char :=
  trimEnd (trimStart l)

/-- Model of Rust `str::starts_with` on byte strings. -/
def beginsWith : List Char → List Char → Bool
  | _, [] => true
  | [], _ :: _ => false
  | a :: as, b :: bs => a = b ∧ beginsWith as bs

/-- Model of Rust `str::ends_with` on byte strings. -/
def finishesWith (l pre : List Char) : Bool :=
  beginsWith l.reverse pre.reverse

/-- Model of Rust `str::strip_prefix`: the remainder after a literal
leading pattern, or `none`. -/
def stripLead : List Char → List Char → Option (List Char)
  | l, [] => some l
  | [], _ :: _ => none
  | a :: as, b :: bs => if a = b then stripLead as bs else none

/-- Model of the `memchr` single-byte search: index of the first
occurrence of `c`. -/
def memchr (c : Char) : List Char → Option Nat
  | [] => none
  | b :: rest => if b = c then some 0 else (memchr c rest).map (· + 1)

/-- Model of the `memchr3` three-byte search: index of the first
occurrence of any of `c1`, `c2`, `c3`. -/
def memchr3 (c1 c2 c3 : Char) : List Char → Option Nat
  | [] => none
  | b :: rest =>
    if b = c1 ∨ b = c2 ∨ b = c3 then some 0
    else (memchr3 c1 c2 c3 rest).map (· + 1)

/-- Model of Rust `str::find(char)`: same as `memchr`. -/
def findChar (c : Char) (l : List Char) : Option Nat :=
  memchr c l

/-- Model of Rust `str::find(&str)`: byte index of the first occurrence
of a substring. -/
def findSub : List Char → List Char → Option Nat
  | _, [] => some 0
  | [], _ :: _ => none
  | a :: as, pat =>
    if beginsWith (a :: as) pat then some 0
    else (findSub as pat).map (· + 1)

/-- Model of Rust `str::contains(&str)`. -/
def containsSub (l pat : List Char) : Bool :=
  (findSub l pat).isSome

/-- Model of Rust `str::contains(char)`. -/
def containsChar (l : List Char) (c : Char) : Bool :=
  (memchr c l).isSome

/-- Model of a Rust subslice `&input[a..b]`. -/
def sliceB (l : List Char) (a b : Nat) : List Char :=
  (l.take b).drop a

/-- Model of Rust `str::split(char)` (keeps empty fragments, as Rust does). -/
def splitOn (c : Char) : List Char → List (List Char)
  | [] => [[]]
  | b :: rest =>
    if b = c then [] :: splitOn c rest
    else
      match splitOn c rest with
      | [] => [[b]]
      | seg :: segs => (b :: seg) :: segs

/-- Helper for `splitWs`: accumulates the current word. -/
def splitWsGo : List Char → List Char → List (List Char)
  | acc, [] => if acc = [] then [] else [acc.reverse]
  | acc, b :: rest =>
    if isWs b then
      if acc = [] then splitWsGo [] rest
      else acc.reverse :: splitWsGo [] rest
    else splitWsGo (b :: acc) rest

/-- Model of Rust `str::split_whitespace` (no empty fragments). -/
def splitWs (l : List Char) : List (List Char) :=
  splitWsGo [] l

/-- Model of Rust `str::parse::<u64>()`: optional leading `+`, decimal
digits, range check against 2^64. -/
def parseDigits : List Char → Option Nat
  | [] => none
  | l => l.foldl (fun acc c =>
      match acc with
      | none => none
      | some n => if c.isDigit then some (n * 10 + (c.toNat - 48)) else none)
      (some 0)

/-- Rust `u64::from_str`: optional sign `+`, digits, value below 2^64. -/
def parseU64 (l : List Char) : Option Nat :=
  let body := match l with
    | '+' :: rest => rest
    | other => other
  match parseDigits body with
  | none => none
  | some n => if n < 2 ^ 64 then some n else none

/-- Rust `i64::from_str`: optional sign, digits, two's-complement range. -/
def parseI64 (l : List Char) : Option Int :=
  match l with
  | '-' :: rest =>
    match parseDigits rest with
    | none => none
    | some n => if n ≤ 2 ^ 63 then some (-(n : Int)) else none
  | '+' :: rest =>
    match parseDigits rest with
    | none => none
    | some n => if n < 2 ^ 63 then some (n : Int) else none
  | other =>
    match parseDigits other with
    | none => none
    | some n => if n < 2 ^ 63 then some (n : Int) else none

/-- A byte range `[start, stop)` into the input (src/span.rs `Span`;
`stop` models the Rust field `end`, a reserved word in Lean). -/
structure Span where
  start : Nat
  stop : Nat
  deriving DecidableEq, Repr

/-- `Span::new`. -/
def Span.new (start stop : Nat) : Span :=
  ⟨start, stop⟩

/-- `Span::len` (saturating subtraction, as in the source). -/
def Span.len (s : Span) : Nat :=
  s.stop - s.start

/-- A single lexed line: its text (terminator excluded) and its span
(src/lexer.rs `Line`). -/
structure Line where
  text : List Char
  span : Span
  deriving DecidableEq, Repr

/-- `Line::is_blank`: only space (0x20) and tab (0x09) count. -/
def Line.is_blank (l : Line) : Bool :=
  l.text.all (fun b => b = ' ' ∨ b = '\t')

/-- `Line::trimmed`. -/
def Line.trimmed (l : Line) : List Char :=
  trim l.text

/-- Core of `Lexer::read_line`, as a function of the input and the
current offset.  Returns the line and the new offset, or `none` at end
of input.  Mirrors src/lexer.rs lines 129-160 exactly: the newline is
located with `memchr`; the CR check `bytes[end-1] == b'\r'` is applied
whether or not a newline was found. -/
def readLineAt (input : List Char) (offset : Nat) : Option (Line × Nat) :=
  if offset ≥ input.length then none
  else
    let start := offset
    let e := match memchr '\n' (input.drop start) with
      | some pos => start + pos
      | none => input.length
    let textEnd := if e > start ∧ input.get? (e - 1) = some '\r' then e - 1 else e
    let offset' := if e < input.length then e + 1 else e
    some ({ text := sliceB input start textEnd, span := Span.new start textEnd }, offset')

/-- The lexer state (src/lexer.rs `Lexer`): input, current byte offset,
and the cached peeked line. -/
structure Lexer where
  input : List Char
  offset : Nat
  peeked : Option Line
  deriving DecidableEq, Repr

/-- `Lexer::new`. -/
def Lexer.new (input : List Char) : Lexer :=
  ⟨input, 0, none⟩

/-- `Lexer::read_line` acting on the lexer state. -/
def Lexer.read_line (lx : Lexer) : Option Line × Lexer :=
  match readLineAt lx.input lx.offset with
  | none => (none, lx)
  | some (l, o) => (some l, { lx with offset := o })

/-- `Lexer::peek_line`: fills the peek cache if empty. -/
def Lexer.peek_line (lx : Lexer) : Option Line × Lexer :=
  match lx.peeked with
  | some l => (some l, lx)
  | none =>
    match lx.read_line with
    | (r, lx') => (r, { lx' with peeked := r })

/-- `Lexer::next_line`: returns the peeked line if present, otherwise
reads a fresh line. -/
def Lexer.next_line (lx : Lexer) : Option Line × Lexer :=
  match lx.peeked with
  | some l => (some l, { lx with peeked := none })
  | none => lx.read_line

/-- `Lexer::is_eof`. -/
def Lexer.is_eof (lx : Lexer) : Bool :=
  lx.peeked.isNone ∧ lx.offset ≥ lx.input.length

/-- Fuelled line decomposition of the input from a given offset.
`readLineAt` advances the offset by at least one byte per line, so fuel
`input.length + 1` is always sufficient. -/
def linesOfGo (input : List Char) : Nat → Nat → List Line
  | 0, _ => []
  | fuel + 1, offset =>
    match readLineAt input offset with
    | none => []
    | some (l, o') => l :: linesOfGo input fuel o'

/-- All lines of the input, in order. -/
def linesOf (input : List Char) : List Line :=
  linesOfGo input (input.length + 1) 0

/-- Error kinds (src/error.rs `ParseErrorKind`). -/
inductive ParseErrorKind where
  | unexpectedEof
  | unclosedDelimiter
  | invalidSyntax
  | unknownDirective
  | invalidMetadata
  | other
  deriving DecidableEq, Repr

/-- A recorded parse error (src/error.rs `ParseError`). -/
structure ParseError where
  message : List Char
  span : Option Span
  kind : ParseErrorKind
  recoverable : Bool
  deriving DecidableEq, Repr

/-- `ParseError::unclosed_delimiter`. -/
def ParseError.unclosed_delimiter (delimiter : List Char) (span : Option Span) : ParseError :=
  { message := ("unclosed ".data) ++ delimiter
    span := span
    kind := .unclosedDelimiter
    recoverable := true }

/-- `ParseError::invalid_syntax`. -/
def ParseError.invalid_syntax (context : List Char) (span : Option Span) : ParseError :=
  { message := ("invalid syntax in ".data) ++ context
    span := span
    kind := .invalidSyntax
    recoverable := true }

/-- `ParseError::unknown_directive`. -/
def ParseError.unknown_directive (directive : List Char) (span : Option Span) : ParseError :=
  { message := ("unknown directive: ".data) ++ directive
    span := span
    kind := .unknownDirective
    recoverable := true }

/-- Parsing profile (src/ast.rs `Profile`). -/
inductive Profile where
  | litedoc
  | md
  | mdStrict
  deriving DecidableEq, Repr

/-- Optional capability modules (src/ast.rs `Module`). -/
inductive Module where
  | tables
  | footnotes
  | math
  | tasks
  | strikethrough
  | autolink
  | html
  deriving DecidableEq, Repr

/-- Typed metadata values (src/ast.rs `AttrValue`).  The `float` variant
carries the source text of the value; the numeric f64 payload itself is
floating point and outside the scope of this embedding (no claim
concerns it). -/
inductive AttrValue where
  | str (v : List Char)
  | bool (v : Bool)
  | int (v : Int)
  | float (raw : List Char)
  | list (items : List AttrValue)

/-- Document metadata (src/ast.rs `Metadata`). -/
structure Metadata where
  entries : List (List Char × AttrValue)
  span : Span

/-- List ordering style (src/ast.rs `ListKind`). -/
inductive ListKind where
  | ordered
  | unordered
  deriving DecidableEq, Repr

/-- Inline AST nodes (src/ast.rs `Inline` with its payload structs
flattened into constructor fields). -/
inductive Inline where
  | text (content : List Char) (span : Span)
  | emphasis (content : List Inline) (span : Span)
  | strong (content : List Inline) (span : Span)
  | codeSpan (content : List Char) (span : Span)
  | link (label : List Inline) (url : List Char) (title : Option (List Char)) (span : Span)
  | autoLink (url : List Char) (span : Span)
  | strikethrough (content : List Inline) (span : Span)
  | footnoteRef (label : List Char) (span : Span)
  | hardBreak (span : Span)
  | softBreak (span : Span)

/-- A single table cell (src/ast.rs `TableCell`). -/
structure TableCell where
  content : List Inline
  span : Span

/-- A single table row (src/ast.rs `TableRow`). -/
structure TableRow where
  cells : List TableCell
  header : Bool
  span : Span

mutual

/-- Block AST nodes (src/ast.rs `Block`, payload structs flattened). -/
inductive Block where
  | heading (level : Nat) (content : List Inline) (span : Span)
  | paragraph (content : List Inline) (span : Span)
  | list (kind : ListKind) (start : Option Nat) (items : List ListItem) (span : Span)
  | codeBlock (lang : List Char) (content : List Char) (span : Span)
  | callout (kind : List Char) (title : Option (List Char)) (blocks : List Block) (span : Span)
  | quote (blocks : List Block) (span : Span)
  | figure (src : List Char) (alt : List Char) (caption : Option (List Char)) (span : Span)
  | table (rows : List TableRow) (span : Span)
  | footnotes (defs : List FootnoteDef) (span : Span)
  | math (display : Bool) (content : List Char) (span : Span)
  | thematicBreak (span : Span)
  | html (content : List Char) (span : Span)
  | raw (content : List Char) (span : Span)

/-- A single list item (src/ast.rs `ListItem`). -/
inductive ListItem where
  | mk (blocks : List Block) (span : Span)

/-- A single footnote definition (src/ast.rs `FootnoteDef`). -/
inductive FootnoteDef where
  | mk (label : List Char) (blocks : List Block) (span : Span)

end

/-- A parsed document (src/ast.rs `Document`). -/
structure Document where
  profile : Profile
  modules : List Module
  metadata : Option Metadata
  blocks : List Block
  span : Span

/-- The span carried by a block node. -/
def Block.spanOf : Block → Span
  | .heading _ _ s => s
  | .paragraph _ s => s
  | .list _ _ _ s => s
  | .codeBlock _ _ s => s
  | .callout _ _ _ s => s
  | .quote _ s => s
  | .figure _ _ _ s => s
  | .table _ s => s
  | .footnotes _ s => s
  | .math _ _ s => s
  | .thematicBreak s => s
  | .html _ s => s
  | .raw _ s => s

/-- `InlineParser::find_next_special` (src/inline.rs lines 83-97): first
position at or after `pos` holding one of the six trigger bytes, or the
text length. -/
def findNextSpecial (bytes : List Char) (pos : Nat) : Nat :=
  let remaining := bytes.drop pos
  match memchr3 '*' '`' '[' remaining, memchr3 '\\' '~' '<' remaining with
  | some a, some b => pos + min a b
  | some a, none => pos + a
  | none, some b => pos + b
  | none, none => bytes.length

/-- `InlineParser::make_text_borrowed`. -/
def makeText (bytes : List Char) (base s e : Nat) : Inline :=
  .text (sliceB bytes s e) (Span.new (base + s) (base + e))

/-- `InlineParser::flush_text`: emit the pending `[ts, pos)` text run if
non-empty.  The caller resets `text_start` to `pos`. -/
def flushText (bytes : List Char) (base pos ts : Nat) (acc : List Inline) : List Inline :=
  if ts < pos then acc ++ [makeText bytes base ts pos] else acc

/-- `InlineParser::try_parse_escape` (src/inline.rs lines 120-127):
advances over the backslash only, returning the new scan position, or
`none` when the backslash is the last byte. -/
def tryParseEscape (bytes : List Char) (pos : Nat) : Option Nat :=
  if pos + 1 < bytes.length then some (pos + 1) else none

/-- `InlineParser::try_parse_code_span` minus the accumulator plumbing:
position of the closing backtick. -/
def tryCodeFind (bytes : List Char) (pos : Nat) : Option Nat :=
  match memchr '`' (bytes.drop (pos + 1)) with
  | none => none
  | some offset => some (pos + 1 + offset)

/-- Search loop of `InlineParser::try_parse_link`: first `]` whose
successor is also `]`, scanning from `searchStart + searchPos`. -/
def linkSearchGo (bytes : List Char) (searchStart : Nat) : Nat → Nat → Option Nat
  | 0, _ => none
  | fuel + 1, searchPos =>
    match memchr ']' (bytes.drop (searchStart + searchPos)) with
    | none => none
    | some offset =>
      let absPos := searchStart + searchPos + offset
      if absPos + 1 < bytes.length ∧ bytes.get? (absPos + 1) = some ']' then some absPos
      else linkSearchGo bytes searchStart fuel (searchPos + offset + 1)

/-- Search loop of `InlineParser::try_parse_strong` (src/inline.rs lines
278-307): a closing `**` whose preceding byte is not a space and whose
content is non-empty. -/
def strongSearchGo (bytes : List Char) (contentStart : Nat) : Nat → Nat → Option Nat
  | 0, _ => none
  | fuel + 1, searchPos =>
    match memchr '*' (bytes.drop (contentStart + searchPos)) with
    | none => none
    | some offset =>
      let absPos := contentStart + searchPos + offset
      if absPos + 1 < bytes.length ∧ bytes.get? (absPos + 1) = some '*'
          ∧ absPos > contentStart ∧ bytes.get? (absPos - 1) ≠ some ' ' then
        some absPos
      else strongSearchGo bytes contentStart fuel (searchPos + offset + 1)

/-- Search loop of `InlineParser::try_parse_emphasis` (src/inline.rs
lines 329-360): a closing single `*`; `**` pairs are skipped; the byte
before the closer must not be a space and the content must be
non-empty. -/
def emphSearchGo (bytes : List Char) (contentStart : Nat) : Nat → Nat → Option Nat
  | 0, _ => none
  | fuel + 1, searchPos =>
    match memchr '*' (bytes.drop (contentStart + searchPos)) with
    | none => none
    | some offset =>
      let absPos := contentStart + searchPos + offset
      if absPos + 1 < bytes.length ∧ bytes.get? (absPos + 1) = some '*' then
        emphSearchGo bytes contentStart fuel (searchPos + offset + 2)
      else if absPos > contentStart ∧ bytes.get? (absPos - 1) ≠ some ' ' then some absPos
      else emphSearchGo bytes contentStart fuel (searchPos + offset + 1)

/-- Search loop of `InlineParser::try_parse_tilde`: closing `~~`. -/
def tildeSearchGo (bytes : List Char) (contentStart : Nat) : Nat → Nat → Option Nat
  | 0, _ => none
  | fuel + 1, searchPos =>
    match memchr '~' (bytes.drop (contentStart + searchPos)) with
    | none => none
    | some offset =>
      let absPos := contentStart + searchPos + offset
      if absPos + 1 < bytes.length ∧ bytes.get? (absPos + 1) = some '~'
          ∧ absPos > contentStart ∧ bytes.get? (absPos - 1) ≠ some ' ' then
        some absPos
      else tildeSearchGo bytes contentStart fuel (searchPos + offset + 1)

/-- Guards and search of `try_parse_strong`: the byte after the opening
`**` must exist and not be a space; then the closing delimiter is
located. -/
def tryStrongFind (bytes : List Char) (pos : Nat) : Option Nat :=
  let contentStart := pos + 2
  if contentStart ≥ bytes.length ∨ bytes.get? contentStart = some ' ' then none
  else strongSearchGo bytes contentStart (bytes.length + 1) 0

/-- Guards and search of `try_parse_emphasis`: the byte after the
opening `*` must exist and not be a space; then the closing delimiter
is located. -/
def tryEmphFind (bytes : List Char) (pos : Nat) : Option Nat :=
  let contentStart := pos + 1
  if contentStart ≥ bytes.length ∨ bytes.get? contentStart = some ' ' then none
  else emphSearchGo bytes contentStart (bytes.length + 1) 0

/-- Guards and search of `try_parse_tilde`: requires `~~`, a non-space
non-end byte after the opener, then the closing delimiter. -/
def tryTildeFind (bytes : List Char) (pos : Nat) : Option Nat :=
  if pos + 1 ≥ bytes.length ∨ bytes.get? (pos + 1) ≠ some '~' then none
  else
    let contentStart := pos + 2
    if contentStart ≥ bytes.length ∨ bytes.get? contentStart = some ' ' then none
    else tildeSearchGo bytes contentStart (bytes.length + 1) 0

/-- `InlineParser::try_parse_autolink` minus accumulator plumbing:
position of `>` when the URL qualifies. -/
def tryAutolinkFind (bytes : List Char) (pos : Nat) : Option Nat :=
  match memchr '>' (bytes.drop (pos + 1)) with
  | none => none
  | some offset =>
    let close := pos + 1 + offset
    let url := sliceB bytes (pos + 1) close
    if (containsSub url ("://".data) ∨ beginsWith url ("mailto:".data))
        ∧ ¬ containsChar url ' ' ∧ ¬ containsChar url '\n' then
      some close
    else none

/-- The main scan loop `InlineParser::parse` (src/inline.rs lines
44-80), with the emphasis / strong / strikethrough cases inlined so
their recursive inner parse is a structurally smaller call.  `fuel`
only bounds the recursion; each loop iteration advances `pos`, so the
budget supplied by `parse_inlines` is never exhausted. -/
def inlineGo : Nat → List Char → Nat → Nat → Nat → List Inline → List Inline
  | 0, bytes, base, _, ts, acc =>
    if ts < bytes.length then acc ++ [makeText bytes base ts bytes.length] else acc
  | fuel + 1, bytes, base, pos, ts, acc =>
    if pos ≥ bytes.length then
      if ts < bytes.length then acc ++ [makeText bytes base ts bytes.length] else acc
    else
      let ns := findNextSpecial bytes pos
      if ns ≥ bytes.length then
        if ts < bytes.length then acc ++ [makeText bytes base ts bytes.length] else acc
      else
        match bytes.get? ns with
        | some '\\' =>
          match tryParseEscape bytes ns with
          | some p => inlineGo fuel bytes base p ts acc
          | none => inlineGo fuel bytes base (ns + 1) ts acc
        | some '`' =>
          match tryCodeFind bytes ns with
          | some close =>
            let acc1 := flushText bytes base ns ts acc
            let content := sliceB bytes (ns + 1) close
            let acc2 := acc1 ++ [.codeSpan content (Span.new (base + ns) (base + close + 1))]
            inlineGo fuel bytes base (close + 1) (close + 1) acc2
          | none => inlineGo fuel bytes base (ns + 1) ts acc
        | some '[' =>
          if bytes.get? (ns + 1) = some '[' then
            match linkSearchGo bytes (ns + 2) (bytes.length + 1) 0 with
            | some absPos =>
              let searchStart := ns + 2
              let content := sliceB bytes searchStart absPos
              let acc1 := flushText bytes base ns ts acc
              let labelText := match findChar '|' content with
                | some pipePos => content.take pipePos
                | none => content
              let url := match findChar '|' content with
                | some pipePos => content.drop (pipePos + 1)
                | none => content
              let label := [Inline.text labelText
                (Span.new (base + searchStart) (base + searchStart + labelText.length))]
              let acc2 := acc1 ++ [.link label url none
                (Span.new (base + ns) (base + absPos + 2))]
              inlineGo fuel bytes base (absPos + 2) (absPos + 2) acc2
            | none => inlineGo fuel bytes base (ns + 1) ts acc
          else if bytes.get? (ns + 1) = some '^' then
            match memchr ']' (bytes.drop (ns + 2)) with
            | some offset =>
              let close := ns + 2 + offset
              let label := sliceB bytes (ns + 2) close
              let acc1 := flushText bytes base ns ts acc
              let acc2 := acc1 ++ [.footnoteRef label (Span.new (base + ns) (base + close + 1))]
              inlineGo fuel bytes base (close + 1) (close + 1) acc2
            | none => inlineGo fuel bytes base (ns + 1) ts acc
          else inlineGo fuel bytes base (ns + 1) ts acc
        | some '*' =>
          if ns + 1 < bytes.length ∧ bytes.get? (ns + 1) = some '*' then
            match tryStrongFind bytes ns with
            | some absPos =>
              let contentStart := ns + 2
              let content := sliceB bytes contentStart absPos
              let acc1 := flushText bytes base ns ts acc
              let inner := inlineGo fuel content (base + contentStart) 0 0 []
              let acc2 := acc1 ++ [.strong inner (Span.new (base + ns) (base + absPos + 2))]
              inlineGo fuel bytes base (absPos + 2) (absPos + 2) acc2
            | none => inlineGo fuel bytes base (ns + 1) ts acc
          else
            match tryEmphFind bytes ns with
            | some absPos =>
              let contentStart := ns + 1
              let content := sliceB bytes contentStart absPos
              let acc1 := flushText bytes base ns ts acc
              let inner := inlineGo fuel content (base + contentStart) 0 0 []
              let acc2 := acc1 ++ [.emphasis inner (Span.new (base + ns) (base + absPos + 1))]
              inlineGo fuel bytes base (absPos + 1) (absPos + 1) acc2
            | none => inlineGo fuel bytes base (ns + 1) ts acc
        | some '~' =>
          match tryTildeFind bytes ns with
          | some absPos =>
            let contentStart := ns + 2
            let content := sliceB bytes contentStart absPos
            let acc1 := flushText bytes base ns ts acc
            let inner := inlineGo fuel content (base + contentStart) 0 0 []
            let acc2 := acc1 ++ [.strikethrough inner (Span.new (base + ns) (base + absPos + 2))]
            inlineGo fuel bytes base (absPos + 2) (absPos + 2) acc2
          | none => inlineGo fuel bytes base (ns + 1) ts acc
        | some '<' =>
          match tryAutolinkFind bytes ns with
          | some close =>
            let url := sliceB bytes (ns + 1) close
            let acc1 := flushText bytes base ns ts acc
            let acc2 := acc1 ++ [.autoLink url (Span.new (base + ns) (base + close + 1))]
            inlineGo fuel bytes base (close + 1) (close + 1) acc2
          | none => inlineGo fuel bytes base (ns + 1) ts acc
        | _ => inlineGo fuel bytes base (ns + 1) ts acc

/-- `parse_inlines` (src/inline.rs lines 17-24).  The fuel
`(n + 2) * (n + 2)` dominates the total number of loop iterations over
the whole recursion tree: each invocation on a run of length m performs
at most m + 1 iterations, and inner runs are disjoint sub-ranges. -/
def parse_inlines (text : List Char) (base : Nat) : List Inline :=
  if text = [] then []
  else inlineGo ((text.length + 2) * (text.length + 2)) text base 0 0 []

/-- The code-fence marker. -/
def ticks : List Char := "```".data

/-- The directive fence marker / closer. -/
def dcolon : List Char := "::".data

/-- The thematic-break / metadata-fence marker. -/
def hrMark : List Char := "---".data

/-- Drop leading blank lines (`Lexer::skip_blank_lines` as seen by the
block parser). -/
def dropBlankLines (lines : List Line) : List Line :=
  lines.dropWhile (·.is_blank)

/-- `Parser::parse_heading` (src/parser.rs lines 356-386).  The `as u8`
cast of the hash count wraps modulo 256. -/
def parse_heading (input : List Char) (l : Line) (rest : List Line) :
    Option Block × List Line × List ParseError :=
  let text := sliceB input l.span.start l.span.stop
  let level := (text.takeWhile (· = '#')).length % 256
  if level = 0 ∨ level > 6 then
    (some (.paragraph (parse_inlines text l.span.start) l.span), rest, [])
  else
    let afterHashes := text.drop level
    if ¬ beginsWith afterHashes (" ".data) ∧ afterHashes ≠ [] then
      (some (.paragraph (parse_inlines text l.span.start) l.span), rest, [])
    else
      let contentText := trimStart afterHashes
      let contentOffset := l.span.start + (text.length - contentText.length)
      (some (.heading level (parse_inlines contentText contentOffset) l.span), rest, [])

/-- Line-consuming loop of `Parser::parse_code_block` (src/parser.rs
lines 416-433): accumulates `content_end` and `end_span` until the
closing fence or end of input.  Returns the final accumulators and the
unconsumed lines. -/
def codeLoop : List Line → Nat → Span → (Nat × Span × List Line)
  | [], ce, es => (ce, es, [])
  | ln :: rest, ce, _es =>
    if ln.trimmed = ticks then (ce, ln.span, rest)
    else codeLoop rest ln.span.stop ln.span

/-- `Parser::parse_code_block` (src/parser.rs lines 389-446). -/
def parse_code_block (input : List Char) (l : Line) (rest : List Line) : Block × List Line :=
  let text := sliceB input l.span.start l.span.stop
  let trimmedT := trim text
  let afterTicks := (stripLead trimmedT ticks).getD []
  let lang0 := trim afterTicks
  let langStart := if lang0 = [] then l.span.stop
    else l.span.start + (findSub text lang0).getD 0
  let langStop := langStart + lang0.length
  let lang := sliceB input langStart langStop
  let contentStart := min (l.span.stop + 1) input.length
  match codeLoop rest contentStart l.span with
  | (contentEnd, endSpan, rest') =>
    let content := if contentStart < contentEnd ∧ contentEnd ≤ input.length
      then sliceB input contentStart contentEnd else []
    (.codeBlock lang content (Span.new l.span.start endSpan.stop), rest')

/-- Line-consuming loop of `Parser::parse_raw_fenced_block`
(src/parser.rs lines 1016-1033): identical shape to the code loop with
the `::` closer. -/
def rawLoop : List Line → Nat → Span → (Nat × Span × List Line)
  | [], ce, es => (ce, es, [])
  | ln :: rest, ce, _es =>
    if ln.trimmed = dcolon then (ce, ln.span, rest)
    else rawLoop rest ln.span.stop ln.span

/-- `Parser::parse_raw_fenced_block` (src/parser.rs lines 1004-1045). -/
def parse_raw_fenced_block (input : List Char) (l : Line) (rest : List Line) : Block × List Line :=
  let contentStart := min (l.span.stop + 1) input.length
  match rawLoop rest contentStart l.span with
  | (ce, es, rest') =>
    let content := if contentStart < ce ∧ ce ≤ input.length
      then sliceB input contentStart ce else []
    (.raw content (Span.new l.span.start es.stop), rest')

/-- Line-consuming loop of `Parser::parse_html_block` (src/parser.rs
lines 495-519): like the raw loop, but records an `UnclosedDelimiter`
error when end of input is reached without the closer. -/
def htmlLoop (startSpan : Span) : List Line → Nat → Span → (Nat × Span × List Line × List ParseError)
  | [], ce, es =>
    (ce, es, [], [ParseError.unclosed_delimiter ("HTML block".data) (some startSpan)])
  | ln :: rest, ce, _es =>
    if ln.trimmed = dcolon then (ce, ln.span, rest, [])
    else htmlLoop startSpan rest ln.span.stop ln.span

/-- `Parser::parse_html_block` (src/parser.rs lines 482-531).  Falls
back to a raw block when the `Html` module is not declared. -/
def parse_html_block (input : List Char) (modules : List Module) (l : Line) (rest : List Line) :
    Block × List Line × List ParseError :=
  if ¬ modules.contains Module.html then
    match parse_raw_fenced_block input l rest with
    | (b, r) => (b, r, [])
  else
    let contentStart := min (l.span.stop + 1) input.length
    match htmlLoop l.span rest contentStart l.span with
    | (ce, es, rest', errs) =>
      let content := if contentStart < ce ∧ ce ≤ input.length
        then sliceB input contentStart ce else []
      (.html content (Span.new l.span.start es.stop), rest', errs)

/-- Line-consuming loop of `Parser::parse_math_block` (src/parser.rs
lines 971-988): same shape as the raw loop; no error at end of input. -/
def mathLoop : List Line → Nat → Span → (Nat × Span × List Line)
  | [], ce, es => (ce, es, [])
  | ln :: rest, ce, _es =>
    if ln.trimmed = dcolon then (ce, ln.span, rest)
    else mathLoop rest ln.span.stop ln.span

/-- `Parser::parse_math_block` (src/parser.rs lines 957-1001). -/
def parse_math_block (input : List Char) (l : Line) (rest : List Line) : Block × List Line :=
  let text := sliceB input l.span.start l.span.stop
  let trimmedT := trim text
  let display := containsSub trimmedT ("block".data) ∨ containsSub trimmedT ("display".data)
  let contentStart := min (l.span.stop + 1) input.length
  match mathLoop rest contentStart l.span with
  | (ce, es, rest') =>
    let content := if contentStart < ce ∧ ce ≤ input.length
      then sliceB input contentStart ce else []
    (.math display content (Span.new l.span.start es.stop), rest')

/-- Flush a pending paragraph accumulated by the until-fence-close
sub-parser (the two identical flush sites in src/parser.rs lines
1066-1073 and 1080-1087). -/
def flushPara (input : List Char) (ps : Option Nat) (pe : Nat) : List Block :=
  match ps with
  | none => []
  | some s => [.paragraph (parse_inlines (sliceB input s pe) s) (Span.new s pe)]

/-- `Parser::parse_until_fence_close` loop (src/parser.rs lines
1047-1099), with the accumulators `para_start`, `para_end` and
`end_span` threaded explicitly.  At end of input the loop breaks
without flushing the pending paragraph, exactly as the source does. -/
def untilFenceCloseGo (input : List Char) :
    List Line → Option Nat → Nat → Span → (List Block × Span × List Line)
  | [], _, _, es => ([], es, [])
  | ln :: rest, ps, pe, _es =>
    if ln.trimmed = dcolon then (flushPara input ps pe, ln.span, rest)
    else if ln.is_blank then
      match untilFenceCloseGo input rest none pe ln.span with
      | (bs, e, r) => (flushPara input ps pe ++ bs, e, r)
    else
      let ps' := if ps = none then some ln.span.start else ps
      untilFenceCloseGo input rest ps' ln.span.stop ln.span

/-- `Parser::parse_until_fence_close` with its initial state
(`para_start = None`, `para_end = 0`, `end_span = Span::new(0, 0)`). -/
def parse_until_fence_close (input : List Char) (lines : List Line) :
    List Block × Span × List Line :=
  untilFenceCloseGo input lines none 0 (Span.new 0 0)

/-- The `key=value` attribute scanner `Parser::parse_callout_attrs`
(src/parser.rs lines 664-710).  Each iteration discards at least the
bytes through the `=`, so fuel `s.length + 1` is always sufficient. -/
def calloutAttrsGo : Nat → List Char → List Char → Option (List Char) →
    (List Char × Option (List Char))
  | 0, _, kind, title => (kind, title)
  | fuel + 1, remaining, kind, title =>
    if remaining = [] then (kind, title)
    else
      match findChar '=' remaining with
      | none => (kind, title)
      | some eqPos =>
        let key := trim (remaining.take eqPos)
        let rem1 := trimStart (remaining.drop (eqPos + 1))
        if rem1.head? = some '"' then
          match findChar '"' (rem1.drop 1) with
          | some e =>
            let val := sliceB rem1 1 (e + 1)
            let rem2 := trimStart (rem1.drop (e + 2))
            if key = ("type".data) then calloutAttrsGo fuel rem2 val title
            else if key = ("title".data) then calloutAttrsGo fuel rem2 kind (some val)
            else calloutAttrsGo fuel rem2 kind title
          | none => (kind, title)
        else
          let e := (findChar ' ' rem1).getD rem1.length
          let val := rem1.take e
          let rem2 := trimStart (rem1.drop e)
          if key = ("type".data) then calloutAttrsGo fuel rem2 val title
          else if key = ("title".data) then calloutAttrsGo fuel rem2 kind (some val)
          else calloutAttrsGo fuel rem2 kind title

/-- `Parser::parse_callout_block` (src/parser.rs lines 643-661). -/
def parse_callout_block (input : List Char) (l : Line) (rest : List Line) : Block × List Line :=
  let text := sliceB input l.span.start l.span.stop
  let trimmedT := trim text
  let afterCallout := trim ((stripLead trimmedT ("::callout".data)).getD [])
  match calloutAttrsGo (afterCallout.length + 1) afterCallout ("note".data) none with
  | (kind, title) =>
    match parse_until_fence_close input rest with
    | (blocks, endSpan, rest') =>
      (.callout kind title blocks (Span.new l.span.start endSpan.stop), rest')

/-- `Parser::parse_quote_block` (src/parser.rs lines 713-721). -/
def parse_quote_block (input : List Char) (l : Line) (rest : List Line) : Block × List Line :=
  match parse_until_fence_close input rest with
  | (blocks, endSpan, rest') =>
    (.quote blocks (Span.new l.span.start endSpan.stop), rest')

/-- The attribute scanner `Parser::parse_figure_attrs` (src/parser.rs
lines 751-795), same shape as the callout one with keys `src`, `alt`,
`caption`. -/
def figureAttrsGo : Nat → List Char → List Char → List Char → Option (List Char) →
    (List Char × List Char × Option (List Char))
  | 0, _, src, alt, caption => (src, alt, caption)
  | fuel + 1, remaining, src, alt, caption =>
    if remaining = [] then (src, alt, caption)
    else
      match findChar '=' remaining with
      | none => (src, alt, caption)
      | some eqPos =>
        let key := trim (remaining.take eqPos)
        let rem1 := trimStart (remaining.drop (eqPos + 1))
        if rem1.head? = some '"' then
          match findChar '"' (rem1.drop 1) with
          | some e =>
            let val := sliceB rem1 1 (e + 1)
            let rem2 := trimStart (rem1.drop (e + 2))
            if key = ("src".data) then figureAttrsGo fuel rem2 val alt caption
            else if key = ("alt".data) then figureAttrsGo fuel rem2 src val caption
            else if key = ("caption".data) then figureAttrsGo fuel rem2 src alt (some val)
            else figureAttrsGo fuel rem2 src alt caption
          | none => (src, alt, caption)
        else
          let e := (findChar ' ' rem1).getD rem1.length
          let val := rem1.take e
          let rem2 := trimStart (rem1.drop e)
          if key = ("src".data) then figureAttrsGo fuel rem2 val alt caption
          else if key = ("alt".data) then figureAttrsGo fuel rem2 src val caption
          else if key = ("caption".data) then figureAttrsGo fuel rem2 src alt (some val)
          else figureAttrsGo fuel rem2 src alt caption

/-- `Parser::parse_figure_block` (src/parser.rs lines 724-748). -/
def parse_figure_block (input : List Char) (l : Line) (rest : List Line) : Block × List Line :=
  let text := sliceB input l.span.start l.span.stop
  let trimmedT := trim text
  let afterFigure := trim ((stripLead trimmedT ("::figure".data)).getD [])
  match figureAttrsGo (afterFigure.length + 1) afterFigure [] [] none with
  | (src, alt, caption) =>
    match rest with
    | ln :: rest' =>
      if ln.trimmed = dcolon then
        (.figure src alt caption (Span.new l.span.start ln.span.stop), rest')
      else (.figure src alt caption (Span.new l.span.start l.span.stop), ln :: rest')
    | [] => (.figure src alt caption (Span.new l.span.start l.span.stop), [])

/-- `Parser::parse_table_row` (src/parser.rs lines 860-891): split on
`|`, discard the leading fragment and empty-trimmed cells, track byte
offsets. -/
def tableRowGo : List (List Char) → Nat → Nat → List TableCell
  | [], _, _ => []
  | part :: parts, i, offset =>
    if i = 0 then tableRowGo parts 1 (offset + part.length + 1)
    else
      let cellText := trim part
      if cellText = [] then tableRowGo parts (i + 1) (offset + part.length + 1)
      else
        { content := parse_inlines cellText offset
          span := Span.new offset (offset + part.length) }
          :: tableRowGo parts (i + 1) (offset + part.length + 1)

/-- Wrapper for `parse_table_row` on a row's trimmed text. -/
def parse_table_row (line : List Char) (baseOffset : Nat) : List TableCell :=
  tableRowGo (splitOn '|' line) 0 baseOffset

/-- Line-consuming loop of `Parser::parse_table_block` (src/parser.rs
lines 805-851): closer, separator, row, or a non-table line (which
records `UnclosedDelimiter` and stops without consuming the line). -/
def tableLoop (input : List Char) (startSpan : Span) :
    List Line → Bool → List TableRow → Span → (List TableRow × Span × List Line × List ParseError)
  | [], _, rows, es => (rows, es, [], [])
  | ln :: rest, found, rows, es =>
    let text := sliceB input ln.span.start ln.span.stop
    let trimmedT := trim text
    if trimmedT = dcolon then (rows, ln.span, rest, [])
    else if beginsWith trimmedT ("|".data) ∧ containsSub trimmedT hrMark then
      tableLoop input startSpan rest true rows ln.span
    else if beginsWith trimmedT ("|".data) then
      let cells := parse_table_row trimmedT ln.span.start
      tableLoop input startSpan rest found
        (rows ++ [{ cells := cells, header := !found && rows.isEmpty, span := ln.span }]) ln.span
    else
      (rows, es, ln :: rest, [ParseError.unclosed_delimiter ("::table".data) (some startSpan)])

/-- `Parser::parse_table_block` (src/parser.rs lines 798-857). -/
def parse_table_block (input : List Char) (l : Line) (rest : List Line) :
    Block × List Line × List ParseError :=
  match tableLoop input l.span rest false [] l.span with
  | (rows, es, rest', errs) => (.table rows (Span.new l.span.start es.stop), rest', errs)

/-- Line-consuming loop of `Parser::parse_footnotes_block`
(src/parser.rs lines 904-948). -/
def footnotesLoop (input : List Char) :
    List Line → List FootnoteDef → Span → (List FootnoteDef × Span × List Line)
  | [], defs, es => (defs, es, [])
  | ln :: rest, defs, _es =>
    let text := sliceB input ln.span.start ln.span.stop
    let trimmedT := trim text
    if trimmedT = dcolon then (defs, ln.span, rest)
    else if beginsWith trimmedT ("[^".data) then
      match findSub trimmedT ("]:".data) with
      | some be =>
        let label := sliceB trimmedT 2 be
        let contentText := trim (trimmedT.drop (be + 2))
        let inl := parse_inlines contentText ln.span.start
        footnotesLoop input rest
          (defs ++ [FootnoteDef.mk label [.paragraph inl ln.span] ln.span]) ln.span
      | none => footnotesLoop input rest defs ln.span
    else footnotesLoop input rest defs ln.span

/-- `Parser::parse_footnotes_block` (src/parser.rs lines 894-954). -/
def parse_footnotes_block (input : List Char) (l : Line) (rest : List Line) : Block × List Line :=
  match footnotesLoop input rest [] l.span with
  | (defs, es, rest') => (.footnotes defs (Span.new l.span.start es.stop), rest')

/-- The `finalize_item` closure of `Parser::parse_list_block`
(src/parser.rs lines 563-575). -/
def finalizeItem (input : List Char) (items : List ListItem) (istart : Option Nat) (iend : Nat) :
    List ListItem :=
  match istart with
  | none => items
  | some s =>
    let contentSlice := sliceB input s iend
    let content := parse_inlines contentSlice s
    items ++ [ListItem.mk [.paragraph content (Span.new s iend)] (Span.new s iend)]

/-- Line-consuming loop of `Parser::parse_list_block` (src/parser.rs
lines 577-632): accumulators are the items so far, the pending item's
start/end, `end_span` and `last_span`.  At end of input the loop exits
without finalizing the pending item, as the source does. -/
def listLoop (input : List Char) (startSpan : Span) :
    List Line → List ListItem → Option Nat → Nat → Span → Span →
    (List ListItem × Span × List Line × List ParseError)
  | [], items, _, _, es, _ => (items, es, [], [])
  | ln :: rest, items, istart, iend, _es, lspan =>
    let text := sliceB input ln.span.start ln.span.stop
    let trimmedT := trim text
    if trimmedT = dcolon then
      (finalizeItem input items istart iend, ln.span, rest, [])
    else if beginsWith trimmedT ("- ".data) then
      let items' := finalizeItem input items istart iend
      let dashOffset := (findSub text ("- ".data)).getD 0
      listLoop input startSpan rest items' (some (ln.span.start + dashOffset + 2))
        ln.span.stop ln.span ln.span
    else if beginsWith trimmedT ("| ".data) then
      listLoop input startSpan rest items istart ln.span.stop ln.span ln.span
    else if ln.is_blank then
      listLoop input startSpan rest items istart iend ln.span ln.span
    else if beginsWith trimmedT dcolon ∨ beginsWith trimmedT ticks
        ∨ beginsWith trimmedT ("#".data) ∨ beginsWith trimmedT ("@profile".data)
        ∨ beginsWith trimmedT ("@modules".data) ∨ trimmedT = hrMark
        ∨ beginsWith trimmedT ("--- meta ---".data) then
      (finalizeItem input items istart iend, lspan, ln :: rest,
        [ParseError.unclosed_delimiter ("::list".data) (some startSpan)])
    else
      (finalizeItem input items istart iend, lspan, ln :: rest,
        [ParseError.invalid_syntax ("list item".data) (some ln.span)])

/-- `Parser::parse_list_block` (src/parser.rs lines 534-640). -/
def parse_list_block (input : List Char) (l : Line) (rest : List Line) :
    Block × List Line × List ParseError :=
  let text := sliceB input l.span.start l.span.stop
  let trimmedT := trim text
  let afterList := trim ((stripLead trimmedT ("::list".data)).getD [])
  let ks := (splitWs afterList).foldl
    (fun (ks : ListKind × Option Nat) part =>
      if part = ("ordered".data) then (ListKind.ordered, ks.2)
      else if part = ("unordered".data) then (ListKind.unordered, ks.2)
      else if beginsWith part ("start=".data) then (ks.1, parseU64 (part.drop 6))
      else ks)
    (ListKind.unordered, none)
  match listLoop input l.span rest [] none l.span.stop l.span l.span with
  | (items, es, rest', errs) =>
    (.list ks.1 ks.2 items (Span.new l.span.start es.stop), rest', errs)

/-- `Parser::parse_fenced_block` (src/parser.rs lines 449-479):
directive dispatch; unknown names record `UnknownDirective` only when
recovery is enabled and the name is non-empty, then fall back to a raw
block. -/
def parse_fenced_block (input : List Char) (recover : Bool) (modules : List Module)
    (l : Line) (rest : List Line) : Option Block × List Line × List ParseError :=
  match stripLead l.trimmed dcolon with
  | none => (none, l :: rest, [])
  | some afterColons =>
    let blockType := ((splitWs afterColons).head?).getD []
    if blockType = ("list".data) then
      match parse_list_block input l rest with
      | (b, r, errs) => (some b, r, errs)
    else if blockType = ("callout".data) then
      match parse_callout_block input l rest with
      | (b, r) => (some b, r, [])
    else if blockType = ("quote".data) then
      match parse_quote_block input l rest with
      | (b, r) => (some b, r, [])
    else if blockType = ("figure".data) then
      match parse_figure_block input l rest with
      | (b, r) => (some b, r, [])
    else if blockType = ("table".data) then
      match parse_table_block input l rest with
      | (b, r, errs) => (some b, r, errs)
    else if blockType = ("footnotes".data) then
      match parse_footnotes_block input l rest with
      | (b, r) => (some b, r, [])
    else if blockType = ("math".data) then
      match parse_math_block input l rest with
      | (b, r) => (some b, r, [])
    else if blockType = ("html".data) then
      match parse_html_block input modules l rest with
      | (b, r, errs) => (some b, r, errs)
    else
      let errs := if recover ∧ blockType ≠ [] then
        [ParseError.unknown_directive blockType (some l.span)] else []
      match parse_raw_fenced_block input l rest with
      | (b, r) => (some b, r, errs)

/-- The break test of the `Parser::parse_paragraph` loop (src/parser.rs
lines 1107-1125): blank lines and block-starter lines stop the
paragraph.  Note that any line whose trimmed text starts with a colon
stops it, even when block dispatch would not recognise it. -/
def shouldBreakPara (l : Line) : Bool :=
  if l.is_blank then true
  else
    match l.trimmed.head? with
    | some '#' => true
    | some ':' => true
    | some '`' => beginsWith l.trimmed ticks
    | some '-' => l.trimmed = hrMark
    | _ => false

/-- Line-consuming loop of `Parser::parse_paragraph`. -/
def paraLoop : List Line → Option Span → Span → (Option Span × Span × List Line)
  | [], ss, es => (ss, es, [])
  | ln :: rest, ss, es =>
    if shouldBreakPara ln then (ss, es, ln :: rest)
    else paraLoop rest (some (ss.getD ln.span)) ln.span

/-- `Parser::parse_paragraph` (src/parser.rs lines 1102-1146).  Returns
`none` (consuming nothing) when the first line already breaks. -/
def parse_paragraph (input : List Char) (lines : List Line) :
    Option Block × List Line × List ParseError :=
  match paraLoop lines none (Span.new 0 0) with
  | (none, _, rest) => (none, rest, [])
  | (some s, es, rest) =>
    let contentSlice := sliceB input s.start es.stop
    (some (.paragraph (parse_inlines contentSlice s.start) (Span.new s.start es.stop)), rest, [])

/-- `Parser::parse_block` (src/parser.rs lines 330-353): dispatch on
the first byte of the trimmed next line. -/
def parse_block (input : List Char) (recover : Bool) (modules : List Module) :
    List Line → Option Block × List Line × List ParseError
  | [] => (none, [], [])
  | l :: rest =>
    let trimmedT := l.trimmed
    if trimmedT.head? = some '#' then parse_heading input l rest
    else if trimmedT.head? = some '`' ∧ beginsWith trimmedT ticks then
      match parse_code_block input l rest with
      | (b, r) => (some b, r, [])
    else if trimmedT.head? = some '-' ∧ trimmedT = hrMark then
      (some (.thematicBreak l.span), rest, [])
    else if trimmedT.head? = some ':' ∧ beginsWith trimmedT dcolon then
      parse_fenced_block input recover modules l rest
    else parse_paragraph input (l :: rest)

/-- The `Parser::parse_blocks` loop (src/parser.rs lines 311-327).
`parse_block` consumes no line when the next line's trimmed text starts
with a colon but not `::` (the paragraph break test fires immediately);
in that case the Rust loop never terminates.  The explicit fuel models
this: `none` means the loop diverges. -/
def parse_blocks (input : List Char) (recover : Bool) (modules : List Module) :
    Nat → List Line → Option (List Block × List ParseError)
  | 0, _ => none
  | _ + 1, [] => some ([], [])
  | fuel + 1, l :: ls =>
    match dropBlankLines (l :: ls) with
    | [] => some ([], [])
    | l1 :: ls1 =>
      match parse_block input recover modules (l1 :: ls1) with
      | (b, rest, errs) =>
        match parse_blocks input recover modules fuel rest with
        | none => none
        | some (bs, es) => some (b.toList ++ bs, errs ++ es)

/-- `Parser::parse_profile_directive` (src/parser.rs lines 134-153). -/
def parse_profile_directive (lines : List Line) : Option Profile × List Line :=
  match lines with
  | [] => (none, [])
  | l :: rest =>
    match stripLead l.trimmed ("@profile".data) with
    | none => (none, l :: rest)
    | some r =>
      let p := if trim r = ("litedoc".data) then some Profile.litedoc
        else if trim r = ("md".data) then some Profile.md
        else if trim r = ("md-strict".data) then some Profile.mdStrict
        else none
      match p with
      | some _ => (p, dropBlankLines rest)
      | none => (none, l :: rest)

/-- `Parser::parse_modules_directive` (src/parser.rs lines 156-183). -/
def parse_modules_directive (lines : List Line) : List Module × List Line :=
  match lines with
  | [] => ([], [])
  | l :: rest =>
    match stripLead l.trimmed ("@modules".data) with
    | none => ([], l :: rest)
    | some r =>
      let mods := (splitOn ',' r).filterMap (fun part =>
        if trim part = ("tables".data) then some Module.tables
        else if trim part = ("footnotes".data) then some Module.footnotes
        else if trim part = ("math".data) then some Module.math
        else if trim part = ("tasks".data) then some Module.tasks
        else if trim part = ("strikethrough".data) then some Module.strikethrough
        else if trim part = ("autolink".data) then some Module.autolink
        else if trim part = ("html".data) then some Module.html
        else none)
      (mods, dropBlankLines rest)

/-- Segment splitter of `Parser::parse_list_items` (src/parser.rs lines
282-308): split on commas outside single or double quotes; quote bytes
toggle the flag and stay in the segment. -/
def splitQuotedGo : List Char → Bool → List Char → List (List Char)
  | [], _, cur => [cur.reverse]
  | c :: rest, inQ, cur =>
    if c = '"' ∨ c = '\'' then splitQuotedGo rest (!inQ) (c :: cur)
    else if c = ',' ∧ ¬ inQ then cur.reverse :: splitQuotedGo rest inQ []
    else splitQuotedGo rest inQ (c :: cur)

/-- All comma-separated segments of a metadata list body. -/
def splitQuoted (s : List Char) : List (List Char) :=
  splitQuotedGo s false []

/-- Digits-only test used by the f64 grammar. -/
def digitsOnly (l : List Char) : Bool :=
  l ≠ [] ∧ l.all Char.isDigit

/-- Mantissa of Rust's `f64::from_str` decimal grammar. -/
def f64Mantissa (l : List Char) : Bool :=
  match memchr '.' l with
  | none => digitsOnly l
  | some i =>
    let a := l.take i
    let b := l.drop (i + 1)
    (digitsOnly a ∧ (b = [] ∨ digitsOnly b)) ∨ (a = [] ∧ digitsOnly b)

/-- Acceptance test mirroring Rust's `f64::from_str` grammar (sign,
decimal mantissa and exponent, case-insensitive inf / infinity / nan).
The numeric value is not modelled; no claim depends on it. -/
def f64Parseable (s : List Char) : Bool :=
  let body := match s with
    | '+' :: r => r
    | '-' :: r => r
    | r => r
  let lower := body.map Char.toLower
  if lower = ("inf".data) ∨ lower = ("infinity".data) ∨ lower = ("nan".data) then true
  else
    match memchr 'e' lower with
    | none => f64Mantissa lower
    | some i =>
      let m := lower.take i
      let ex := lower.drop (i + 1)
      let exBody := match ex with
        | '+' :: r => r
        | '-' :: r => r
        | r => r
      f64Mantissa m ∧ digitsOnly exBody

mutual

/-- `Parser::parse_attr_value` (src/parser.rs lines 246-279).  The fuel
bounds the nesting depth of bracketed lists; `s.length + 1` is always
sufficient because each nesting level strips at least the surrounding
brackets. -/
def parseAttrGo : Nat → List Char → AttrValue
  | 0, s => .str s
  | fuel + 1, s =>
    if s = ("true".data) then .bool true
    else if s = ("false".data) then .bool false
    else if beginsWith s ("[".data) ∧ finishesWith s ("]".data) then
      .list (parseItemsGo fuel (splitQuoted (sliceB s 1 (s.length - 1))))
    else
      match parseI64 s with
      | some i => .int i
      | none =>
        if containsChar s '.' ∧ f64Parseable s then .float s
        else
          let unquoted := if (beginsWith s ("\"".data) ∧ finishesWith s ("\"".data))
              ∨ (beginsWith s ("'".data) ∧ finishesWith s ("'".data)) then
            sliceB s 1 (s.length - 1)
          else s
          .str unquoted

/-- Per-segment part of `Parser::parse_list_items`: trim, drop empty,
recurse. -/
def parseItemsGo : Nat → List (List Char) → List AttrValue
  | 0, _ => []
  | fuel + 1, segs =>
    match segs with
    | [] => []
    | seg :: rest =>
      let item := trim seg
      if item = [] then parseItemsGo fuel rest
      else parseAttrGo fuel item :: parseItemsGo fuel rest

end

/-- Line-consuming loop of `Parser::parse_metadata` (src/parser.rs
lines 201-237). -/
def metaLoopGo (input : List Char) :
    List Line → List (List Char × AttrValue) → Span →
    (List (List Char × AttrValue) × Span × List Line)
  | [], entries, es => (entries, es, [])
  | ln :: rest, entries, _es =>
    if ln.trimmed = hrMark then (entries, ln.span, rest)
    else
      match findChar ':' ln.trimmed with
      | some _ =>
        let lineText := sliceB input ln.span.start ln.span.stop
        match findChar ':' lineText with
        | some cp =>
          let key := trim (lineText.take cp)
          let valSlice := trim (lineText.drop (cp + 1))
          let value := parseAttrGo (valSlice.length + 1) valSlice
          metaLoopGo input rest (entries ++ [(key, value)]) ln.span
        | none => metaLoopGo input rest entries ln.span
      | none => metaLoopGo input rest entries ln.span

/-- `Parser::parse_metadata` (src/parser.rs lines 186-243). -/
def parse_metadata (input : List Char) (lines : List Line) : Option Metadata × List Line :=
  match lines with
  | [] => (none, [])
  | l :: rest =>
    if ¬ (beginsWith l.trimmed hrMark ∧ containsSub l.trimmed ("meta".data)) then
      (none, l :: rest)
    else
      match metaLoopGo input rest [] l.span with
      | (entries, es, rest') =>
        (some { entries := entries, span := Span.new l.span.start es.stop }, rest')

/-- The parser facade (src/parser.rs `Parser`): configured profile and
the recovery flag.  The error collector is modelled writer-style and
the module list is recomputed per parse, so neither is part of the
persistent state needed here. -/
structure Parser where
  profile : Profile
  recover_on_error : Bool

/-- `Parser::new`. -/
def Parser.new (profile : Profile) : Parser :=
  ⟨profile, true⟩

/-- `Parser::with_recovery`. -/
def Parser.with_recovery (p : Parser) (recover : Bool) : Parser :=
  { p with recover_on_error := recover }

/-- `Parser::parse_internal` (src/parser.rs lines 95-119): the full
pipeline.  Returns the document and the recorded errors, or `none`
when the block loop diverges (see `parse_blocks`). -/
def parse_internal (p : Parser) (input : List Char) : Option (Document × List ParseError) :=
  let lines0 := dropBlankLines (linesOf input)
  match parse_profile_directive lines0 with
  | (profileOpt, lines1) =>
    match parse_modules_directive lines1 with
    | (modules, lines2) =>
      let lines3 := dropBlankLines lines2
      match parse_metadata input lines3 with
      | (metadata, lines4) =>
        let lines5 := dropBlankLines lines4
        match parse_blocks input p.recover_on_error modules (lines5.length + 1) lines5 with
        | none => none
        | some (blocks, errs) =>
          some ({ profile := profileOpt.getD p.profile
                  modules := modules
                  metadata := metadata
                  blocks := blocks
                  span := Span.new 0 input.length }, errs)

/-- `Parser::parse_with_recovery` (src/parser.rs lines 72-79): document
plus full error list. -/
def Parser.parse_with_recovery (p : Parser) (input : List Char) :
    Option (Document × List ParseError) :=
  parse_internal p input

/-- `Parser::parse` (src/parser.rs lines 83-92): the document, or the
first recorded error. -/
def Parser.parse (p : Parser) (input : List Char) : Option (Except ParseError Document) :=
  match parse_internal p input with
  | none => none
  | some (doc, []) => some (.ok doc)
  | some (_, e :: _) => some (.error e)

/-- Language and content of a code block, for claim statements. -/
def Block.codeParts? : Block → Option (List Char × List Char)
  | .codeBlock lang content _ => some (lang, content)
  | _ => none

/-- Display flag and content of a math block, for claim statements. -/
def Block.mathParts? : Block → Option (Bool × List Char)
  | .math display content _ => some (display, content)
  | _ => none

/-- Content of an html block, for claim statements. -/
def Block.htmlContent? : Block → Option (List Char)
  | .html content _ => some content
  | _ => none

/-- Kind and body blocks of a callout, for claim statements. -/
def Block.calloutParts? : Block → Option (List Char × List Block)
  | .callout kind _ blocks _ => some (kind, blocks)
  | _ => none

/-- Content of a raw block, for claim statements. -/
def Block.rawContent? : Block → Option (List Char)
  | .raw content _ => some content
  | _ => none

/-- Body blocks of a quote, for claim statements. -/
def Block.quoteBlocks? : Block → Option (List Block)
  | .quote blocks _ => some blocks
  | _ => none

/-- The default parser used by concrete evaluations in the claims. -/
def pLite : Parser :=
  Parser.new .litedoc

/-- Iterate `Lexer::next_line` a given number of times, discarding the
returned lines.  Used to state that the lexer is exhausted after at
most `input.len()` calls. -/
def skipNext : Nat → Lexer → Lexer
  | 0, lx => lx
  | n + 1, lx => skipNext n (lx.next_line).2

/-- The content lines of a fenced code block: everything before the
closing fence line. -/
def codeBody (rest : List Line) : List Line :=
  rest.takeWhile (fun ln => !decide (ln.trimmed = ticks))

/-- Content of a fenced code block following the amended claim: the raw
input bytes from the byte after the opening fence line's newline up to
the end of the last content line (the line terminator of that last
line excluded); empty when there are no content lines. -/
def codeContentSpec (input : List Char) (l : Line) (rest : List Line) : List Char :=
  let cs := min (l.span.stop + 1) input.length
  match (codeBody rest).getLast? with
  | none => []
  | some lastLn =>
    if cs < lastLn.span.stop ∧ lastLn.span.stop ≤ input.length then
      sliceB input cs lastLn.span.stop
    else []

/-- Content of an unclosed fenced block at end of input, following the
amended claim: the raw bytes from after the opening line's newline
through the end of the last line read. -/
def eofFenceContent (input : List Char) (l : Line) (rest : List Line) : List Char :=
  let cs := min (l.span.stop + 1) input.length
  match rest.getLast? with
  | none => []
  | some lastLn =>
    if cs < lastLn.span.stop ∧ lastLn.span.stop ≤ input.length then
      sliceB input cs lastLn.span.stop
    else []

/-- Whether the first body line of a `::table` block is a separator
line.  Inside the table loop, every line consumed before the first row
is either a separator or ends the loop (so no row follows); hence,
when a first row exists, this test says exactly "a separator line was
seen before it". -/
def firstTableBodyLineIsSep (input : List Char) : List Line → Bool
  | [] => false
  | ln :: _ =>
    let trimmedT := trim (sliceB input ln.span.start ln.span.stop)
    if trimmedT = dcolon then false
    else if beginsWith trimmedT ("|".data) ∧ containsSub trimmedT hrMark then true
    else false

/-- C1: the span invariant `start ≤ end ≤ input.len()` does not hold for
every produced node.  On input `"x\n::quote"` the `::quote` opener is
the last line, so `parse_until_fence_close` returns its initial
sentinel `Span::new(0, 0)` as the closer span and the Quote block gets
span `(2, 0)` — start exceeds end.  This theorem evaluates the parser
at that input: the document has a paragraph with span `(0, 1)` and an
empty Quote with span `(2, 0)`, and no error is recorded. -/
theorem C1_quote_span_start_exceeds_stop :
    (parse_internal pLite ("x\n::quote".data)).map
        (fun r => (r.1.blocks.map Block.spanOf, r.1.blocks.map Block.quoteBlocks?, r.2))
      = some ([Span.new 0 1, Span.new 2 0], [none, some []], [])
    ∧ (Span.new 2 0).stop < (Span.new 2 0).start :=
  ⟨rfl, by decide⟩

/-- C3: a backslash escape does not shield the following byte.
`try_parse_escape` advances the scan position only past the backslash
and the next iteration re-examines the escaped byte, so in `"\*foo*"`
the asterisk after the backslash still opens emphasis: the result is a
`Text "\"` node followed by an `Emphasis` node, where the claim
requires the whole run to stay plain text. -/
theorem C3_escaped_asterisk_still_opens_emphasis :
    parse_inlines ("\\*foo*".data) 0
      = [.text ("\\".data) (Span.new 0 1),
         .emphasis [.text ("foo".data) (Span.new 2 5)] (Span.new 1 6)] :=
  rfl

/-- C2 counterexample: parsing `"```rust\nfn f(){}\n```"` yields a
CodeBlock whose content is `"fn f(){}"` without the trailing newline —
`content_end` is the end of the last content line's text, which
excludes the line terminator — contradicting the claimed content
`"fn f(){}\n"`. -/
theorem C2_counterexample_no_trailing_newline :
    (parse_internal pLite ("```rust\nfn f(){}\n```".data)).map
        (fun r => (r.1.blocks.map Block.codeParts?, r.2))
      = some ([some ("rust".data, "fn f(){}".data)], [])
    ∧ ("fn f(){}".data : List Char) ≠ ("fn f(){}\n".data : List Char) :=
  ⟨rfl, by decide⟩

/-- C4 counterexample: an unclosed code fence and an unclosed `::math`
fence record no error at all — their end-of-input loop branches simply
break — so the error list of `parse_with_recovery` is empty, where the
claim requires an `UnclosedDelimiter` entry.  (Only the html fence
records one; see the amended theorem.) -/
theorem C4_counterexample_unclosed_code_and_math_record_no_error :
    (parse_internal pLite ("```rust\nfn f(){}".data)).map
        (fun r => (r.1.blocks.map Block.codeParts?, r.2))
      = some ([some ("rust".data, "fn f(){}".data)], [])
    ∧ (parse_internal pLite ("::math\nx + y".data)).map
        (fun r => (r.1.blocks.map Block.mathParts?, r.2))
      = some ([some (false, "x + y".data)], []) :=
  ⟨rfl, rfl⟩

/-- C5 counterexample: a CR that is the last byte of the input is not
kept in the line text.  `read_line` finds no newline, sets the
tentative end to the input length, and its CRLF test then strips the
final CR: on `"a\r"` the produced line text is `"a"` with span
`(0, 1)`, where the claim requires the CR to remain part of the line. -/
theorem C5_counterexample_final_cr_dropped :
    readLineAt ("a\r".data) 0 = some ({ text := "a".data, span := Span.new 0 1 }, 2)
    ∧ ("a".data : List Char) ≠ ("a\r".data : List Char) :=
  ⟨rfl, by decide⟩

/-- C10 counterexample: a successful `next_line` does not always
advance the byte offset.  After `peek_line` on input `"a"` the offset
is already 1; the following `next_line` succeeds, returning the cached
line, and leaves the offset at 1. -/
theorem C10_counterexample_next_line_after_peek_keeps_offset :
    ((Lexer.new ("a".data)).peek_line).2.offset = 1
    ∧ (((Lexer.new ("a".data)).peek_line).2.next_line).1
        = some { text := "a".data, span := Span.new 0 1 }
    ∧ (((Lexer.new ("a".data)).peek_line).2.next_line).2.offset = 1 :=
  ⟨rfl, rfl, rfl⟩

theorem codeLoop_contentEnd : ∀ (rest : List Line) (ce : Nat) (es : Span),
    (codeLoop rest ce es).1 = ((codeBody rest).getLast?).elim ce (fun ln => ln.span.stop) := by
  intro rest
  induction rest with
  | nil => intro ce es; simp [codeLoop, codeBody]
  | cons ln rest ih =>
    intro ce es
    by_cases h : ln.trimmed = ticks
    · simp [codeLoop, codeBody, h]
    · rw [show codeLoop (ln :: rest) ce es = codeLoop rest ln.span.stop ln.span from by
        simp [codeLoop, h]]
      rw [ih ln.span.stop ln.span]
      rw [show codeBody (ln :: rest) = ln :: codeBody rest from by
        simp [codeBody, List.takeWhile_cons, h]]
      cases hl : codeBody rest with
      | nil => simp
      | cons y ys =>
        simp only [List.getLast?_cons_cons]
        cases hys : (y :: ys).getLast? with
        | none => exact absurd (List.getLast?_eq_none_iff.mp hys) (by simp)
        | some z => simp

/-- C2 amended: for every invocation, the code block content equals the
raw bytes from after the opening fence line's newline up to the end of
the last content line, excluding that line's terminator
(`codeContentSpec`); on the example input the content is therefore
`"fn f(){}"` with no trailing newline, and lang is `"rust"`. -/
theorem C2_amended_code_block_content :
    (∀ (input : List Char) (l : Line) (rest : List Line),
        (Block.codeParts? (parse_code_block input l rest).1).map (fun q => q.2)
          = some (codeContentSpec input l rest))
    ∧ (parse_internal pLite ("```rust\nfn f(){}\n```".data)).map
        (fun r => (r.1.blocks.map Block.codeParts?, r.2))
      = some ([some ("rust".data, "fn f(){}".data)], []) := by
  constructor
  · intro input l rest
    have hce := codeLoop_contentEnd rest (min (l.span.stop + 1) input.length) l.span
    rcases hloop : codeLoop rest (min (l.span.stop + 1) input.length) l.span with ⟨ce, es, rest'⟩
    rw [hloop] at hce
    simp only [parse_code_block, hloop]
    simp only [Block.codeParts?, Option.map_some, codeContentSpec]
    cases hlast : (codeBody rest).getLast? with
    | none => simp [hlast] at hce; simp [hce]
    | some lastLn => simp [hlast] at hce; simp [hce]
  · rfl

theorem htmlLoop_eof (startSpan : Span) : ∀ (rest : List Line) (ce : Nat) (es : Span),
    (∀ ln ∈ rest, ln.trimmed ≠ dcolon) →
    htmlLoop startSpan rest ce es
      = ((rest.getLast?).elim ce (fun ln => ln.span.stop),
         (rest.getLast?).elim es (fun ln => ln.span),
         [],
         [ParseError.unclosed_delimiter ("HTML block".data) (some startSpan)]) := by
  intro rest
  induction rest with
  | nil => intro ce es _; simp [htmlLoop]
  | cons ln rest ih =>
    intro ce es hnc
    have hln : ln.trimmed ≠ dcolon := hnc ln (by simp)
    rw [show htmlLoop startSpan (ln :: rest) ce es
        = htmlLoop startSpan rest ln.span.stop ln.span from by simp [htmlLoop, hln]]
    rw [ih ln.span.stop ln.span (fun x hx => hnc x (by simp [hx]))]
    cases hl : rest.getLast? with
    | none =>
      have : rest = [] := List.getLast?_eq_none_iff.mp hl
      simp [this]
    | some z =>
      have hne : rest ≠ [] := by
        intro hr; rw [hr] at hl; simp at hl
      cases rest with
      | nil => simp at hne
      | cons y ys => simp [List.getLast?_cons_cons] at hl ⊢; simp [hl]

theorem mathLoop_eof : ∀ (rest : List Line) (ce : Nat) (es : Span),
    (∀ ln ∈ rest, ln.trimmed ≠ dcolon) →
    mathLoop rest ce es
      = ((rest.getLast?).elim ce (fun ln => ln.span.stop),
         (rest.getLast?).elim es (fun ln => ln.span),
         []) := by
  intro rest
  induction rest with
  | nil => intro ce es _; simp [mathLoop]
  | cons ln rest ih =>
    intro ce es hnc
    have hln : ln.trimmed ≠ dcolon := hnc ln (by simp)
    rw [show mathLoop (ln :: rest) ce es = mathLoop rest ln.span.stop ln.span from by
      simp [mathLoop, hln]]
    rw [ih ln.span.stop ln.span (fun x hx => hnc x (by simp [hx]))]
    cases hl : rest.getLast? with
    | none =>
      have : rest = [] := List.getLast?_eq_none_iff.mp hl
      simp [this]
    | some z =>
      have hne : rest ≠ [] := by
        intro hr; rw [hr] at hl; simp at hl
      cases rest with
      | nil => simp at hne
      | cons y ys => simp [List.getLast?_cons_cons] at hl ⊢; simp [hl]

/-- C4 amended: when a fence is opened and end of input is reached
without its closing line, only the `::html` block (with the Html module
declared) records an `UnclosedDelimiter "HTML block"` error; unclosed
code and `::math` fences record no error; in all three cases the
produced block's content extends through the end of the last line
read.  The conjuncts: (1) the html parser at end of input; (2) the math
parser at end of input together with (3) the fact that the `::math`
dispatch emits no error; (4) the code-fence dispatch emits no error;
(5) a concrete html evaluation showing exactly one recorded
`UnclosedDelimiter`. -/
theorem C4_amended_unclosed_fence_errors :
    (∀ (input : List Char) (modules : List Module) (l : Line) (rest : List Line),
        modules.contains Module.html = true →
        (∀ ln ∈ rest, ln.trimmed ≠ dcolon) →
        parse_html_block input modules l rest
          = (.html (eofFenceContent input l rest)
               (Span.new l.span.start (((rest.getLast?).elim l.span (fun ln => ln.span)).stop)),
             [],
             [ParseError.unclosed_delimiter ("HTML block".data) (some l.span)]))
    ∧ (∀ (input : List Char) (l : Line) (rest : List Line),
        (∀ ln ∈ rest, ln.trimmed ≠ dcolon) →
        (Block.mathParts? (parse_math_block input l rest).1).map (fun q => q.2)
            = some (eofFenceContent input l rest)
          ∧ Block.spanOf (parse_math_block input l rest).1
            = Span.new l.span.start (((rest.getLast?).elim l.span (fun ln => ln.span)).stop)
          ∧ (parse_math_block input l rest).2 = [])
    ∧ (∀ (input : List Char) (recover : Bool) (modules : List Module)
          (l : Line) (rest : List Line) (ac : List Char),
        stripLead l.trimmed dcolon = some ac →
        ((splitWs ac).head?).getD [] = ("math".data) →
        (parse_fenced_block input recover modules l rest).2.2 = [])
    ∧ (∀ (input : List Char) (recover : Bool) (modules : List Module)
          (l : Line) (rest : List Line),
        l.trimmed.head? = some '`' →
        beginsWith l.trimmed ticks = true →
        (parse_block input recover modules (l :: rest)).2.2 = [])
    ∧ (parse_internal pLite ("@modules html\n::html\n<b>".data)).map
        (fun r => (r.1.blocks.map Block.htmlContent?, r.2))
      = some ([some ("<b>".data)],
          [ParseError.unclosed_delimiter ("HTML block".data) (some (Span.new 14 20))]) := by
  refine ⟨?_, ?_, ?_, ?_, rfl⟩
  · intro input modules l rest hmod hnc
    simp only [parse_html_block, hmod, Bool.not_true, reduceIte,
      htmlLoop_eof l.span rest (min (l.span.stop + 1) input.length) l.span hnc]
    cases hl : rest.getLast? with
    | none => simp [eofFenceContent, hl]
    | some z => simp [eofFenceContent, hl]
  · intro input l rest hnc
    simp only [parse_math_block,
      mathLoop_eof rest (min (l.span.stop + 1) input.length) l.span hnc]
    cases hl : rest.getLast? with
    | none => simp [eofFenceContent, hl, Block.mathParts?, Block.spanOf]
    | some z => simp [eofFenceContent, hl, Block.mathParts?, Block.spanOf]
  · intro input recover modules l rest ac hstrip hname
    simp only [parse_fenced_block, hstrip, hname]
    simp [show ¬ (("math".data : List Char) = ("list".data)) from by decide,
      show ¬ (("math".data : List Char) = ("callout".data)) from by decide,
      show ¬ (("math".data : List Char) = ("quote".data)) from by decide,
      show ¬ (("math".data : List Char) = ("figure".data)) from by decide,
      show ¬ (("math".data : List Char) = ("table".data)) from by decide,
      show ¬ (("math".data : List Char) = ("footnotes".data)) from by decide]
  · intro input recover modules l rest h1 h2
    have hne : l.trimmed.head? ≠ some '#' := by rw [h1]; decide
    simp [parse_block, h1, h2, hne]

/-- Witness for the amended C4, instantiating the html conjunct at a
concrete unclosed `::html` block. -/
theorem C4_amended_unclosed_fence_errors_witness :
    parse_html_block ("::html\nx".data) [Module.html]
        { text := "::html".data, span := Span.new 0 6 }
        [{ text := "x".data, span := Span.new 7 8 }]
      = (.html (eofFenceContent ("::html\nx".data)
            { text := "::html".data, span := Span.new 0 6 }
            [{ text := "x".data, span := Span.new 7 8 }])
           (Span.new 0 8),
         [],
         [ParseError.unclosed_delimiter ("HTML block".data) (some (Span.new 0 6))]) :=
  C4_amended_unclosed_fence_errors.1 ("::html\nx".data) [Module.html]
    { text := "::html".data, span := Span.new 0 6 }
    [{ text := "x".data, span := Span.new 7 8 }]
    (by decide) (by decide)

theorem memchr_eq_none_of_not_mem {c : Char} : ∀ {l : List Char}, c ∉ l → memchr c l = none := by
  intro l
  induction l with
  | nil => intro _; rfl
  | cons b rest ih =>
    intro h
    have hb : b ≠ c := fun hbc => h (by simp [hbc])
    have hr : c ∉ rest := fun hm => h (by simp [hm])
    simp [memchr, hb, ih hr]

theorem memchr_append_self {c : Char} : ∀ (s1 s2 : List Char), c ∉ s1 →
    memchr c (s1 ++ c :: s2) = some s1.length := by
  intro s1
  induction s1 with
  | nil => intro s2 _; simp [memchr]
  | cons b rest ih =>
    intro s2 h
    have hb : b ≠ c := fun hbc => h (by simp [hbc])
    have hr : c ∉ rest := fun hm => h (by simp [hm])
    simp [memchr, hb, ih s2 hr]

theorem sliceB_middle (pre s1 tail : List Char) :
    sliceB (pre ++ s1 ++ tail) pre.length (pre.length + s1.length) = s1 := by
  unfold sliceB
  rw [show pre ++ s1 ++ tail = (pre ++ s1) ++ tail from by simp]
  rw [List.take_append_eq_append_take]
  have h1 : (pre ++ s1).take (pre.length + s1.length) = pre ++ s1 := by
    apply List.take_of_length_le
    simp
  have h2 : pre.length + s1.length - (pre ++ s1).length = 0 := by simp
  rw [h1, h2]
  simp [List.drop_left]

theorem getElem?_middle_last (pre s1 tail : List Char) (h : s1 ≠ []) :
    (pre ++ s1 ++ tail)[pre.length + s1.length - 1]? = s1.getLast? := by
  have hn : 1 ≤ s1.length := by
    cases s1 with
    | nil => simp at h
    | cons a l => simp [Nat.succ_le_succ, Nat.zero_le]
  rw [List.append_assoc]
  rw [List.getElem?_append_right (by omega : pre.length ≤ pre.length + s1.length - 1)]
  have : pre.length + s1.length - 1 - pre.length = s1.length - 1 := by omega
  rw [this]
  rw [List.getElem?_append_left (by omega : s1.length - 1 < s1.length)]
  rw [List.getLast?_eq_getElem?]

/-- C5 amended: both LF and CRLF terminate a line and are excluded from
its text and span; a CR that is not immediately followed by LF stays in
the line's text (it may occur anywhere inside `s1` below), with one
exception forced by the code: a CR that is the last byte of the input
is excluded from the final line's text and span, although the offset
advances past it.  Conjuncts: (1) LF-terminated line; (2)
CRLF-terminated line; (3) final line at end of input with no
terminator; (4) final line whose last byte is a lone CR at end of
input, which is dropped. -/
theorem C5_amended_line_terminators :
    (∀ (pre s1 s2 : List Char), '\n' ∉ s1 → s1.getLast? ≠ some '\r' →
        readLineAt (pre ++ s1 ++ '\n' :: s2) pre.length
          = some ({ text := s1, span := Span.new pre.length (pre.length + s1.length) },
              pre.length + s1.length + 1))
    ∧ (∀ (pre s1 s2 : List Char), '\n' ∉ s1 →
        readLineAt (pre ++ s1 ++ '\r' :: '\n' :: s2) pre.length
          = some ({ text := s1, span := Span.new pre.length (pre.length + s1.length) },
              pre.length + s1.length + 2))
    ∧ (∀ (pre s1 : List Char), '\n' ∉ s1 → s1 ≠ [] → s1.getLast? ≠ some '\r' →
        readLineAt (pre ++ s1) pre.length
          = some ({ text := s1, span := Span.new pre.length (pre.length + s1.length) },
              pre.length + s1.length))
    ∧ (∀ (pre s1 : List Char), '\n' ∉ s1 →
        readLineAt (pre ++ s1 ++ ['\r']) pre.length
          = some ({ text := s1, span := Span.new pre.length (pre.length + s1.length) },
              pre.length + s1.length + 1)) := by
  refine ⟨?_, ?_, ?_, ?_⟩
  · intro pre s1 s2 hnl hcr
    have hdrop : (pre ++ s1 ++ '\n' :: s2).drop pre.length = s1 ++ '\n' :: s2 := by
      rw [List.append_assoc]; exact List.drop_left _ _
    have hmem : memchr '\n' (s1 ++ '\n' :: s2) = some s1.length :=
      memchr_append_self s1 s2 hnl
    have hlen : (pre ++ s1 ++ '\n' :: s2).length = pre.length + s1.length + 1 + s2.length := by
      simp; omega
    have hslice : sliceB (pre ++ s1 ++ '\n' :: s2) pre.length (pre.length + s1.length) = s1 :=
      sliceB_middle pre s1 ('\n' :: s2)
    simp only [readLineAt, hdrop, hmem, hlen]
    have hoff : pre.length + s1.length < pre.length + s1.length + 1 + s2.length := by omega
    rw [if_neg (by omega)]
    by_cases hn : s1 = []
    · subst hn
      simp only [List.length_nil, Nat.add_zero, gt_iff_lt, Nat.lt_irrefl, false_and, if_false]
      have hoff0 : pre.length < pre.length + 0 + 1 + s2.length := by omega
      rw [if_pos (by simpa using hoff0)]
      simpa using hslice
    · have hget : (pre ++ s1 ++ '\n' :: s2).get? (pre.length + s1.length - 1) = s1.getLast? := by
        rw [List.get?_eq_getElem?]
        exact getElem?_middle_last pre s1 ('\n' :: s2) hn
      rw [if_neg (by rw [hget]; intro hc; exact hcr hc.2)]
      rw [if_pos hoff]
      rw [hslice]
  · intro pre s1 s2 hnl
    have hassoc : pre ++ s1 ++ '\r' :: '\n' :: s2 = pre ++ (s1 ++ ['\r']) ++ '\n' :: s2 := by
      simp
    have hdrop : (pre ++ (s1 ++ ['\r']) ++ '\n' :: s2).drop pre.length
        = (s1 ++ ['\r']) ++ '\n' :: s2 := by
      rw [List.append_assoc]; exact List.drop_left _ _
    have hnl' : '\n' ∉ s1 ++ ['\r'] := by
      intro hm
      rcases List.mem_append.mp hm with h1 | h1
      · exact hnl h1
      · simp at h1
    have hmem : memchr '\n' ((s1 ++ ['\r']) ++ '\n' :: s2) = some (s1.length + 1) := by
      have := memchr_append_self (s1 ++ ['\r']) s2 hnl'
      simpa using this
    have hlen : (pre ++ (s1 ++ ['\r']) ++ '\n' :: s2).length
        = pre.length + s1.length + 2 + s2.length := by simp; omega
    have hget : (pre ++ (s1 ++ ['\r']) ++ '\n' :: s2).get? (pre.length + (s1.length + 1) - 1)
        = some '\r' := by
      rw [List.get?_eq_getElem?]
      have := getElem?_middle_last pre (s1 ++ ['\r']) ('\n' :: s2) (by simp)
      simpa using this
    have hslice : sliceB (pre ++ (s1 ++ ['\r']) ++ '\n' :: s2) pre.length (pre.length + s1.length)
        = s1 := by
      have := sliceB_middle pre s1 ('\r' :: '\n' :: s2)
      simpa using this
    rw [hassoc]
    simp only [readLineAt, hdrop, hmem, hlen]
    have hcond : pre.length + (s1.length + 1) > pre.length
        ∧ (pre ++ (s1 ++ ['\r']) ++ '\n' :: s2).get? (pre.length + (s1.length + 1) - 1)
            = some '\r' := ⟨by omega, hget⟩
    have hoff : pre.length + (s1.length + 1) < pre.length + s1.length + 2 + s2.length := by omega
    rw [if_neg (by omega)]
    rw [if_pos hcond]
    rw [if_pos hoff]
    rw [show pre.length + (s1.length + 1) - 1 = pre.length + s1.length from by omega, hslice]
    rw [show pre.length + (s1.length + 1) + 1 = pre.length + s1.length + 2 from by omega]
  · intro pre s1 hnl hne hcr
    have hdrop : (pre ++ s1).drop pre.length = s1 := List.drop_left _ _
    have hmem : memchr '\n' s1 = none := memchr_eq_none_of_not_mem hnl
    have hlen : (pre ++ s1).length = pre.length + s1.length := by simp
    have hget : (pre ++ s1).get? (pre.length + s1.length - 1) = s1.getLast? := by
      rw [List.get?_eq_getElem?]
      have := getElem?_middle_last pre s1 [] hne
      simpa using this
    have hslice : sliceB (pre ++ s1) pre.length (pre.length + s1.length) = s1 := by
      have := sliceB_middle pre s1 []
      simpa using this
    have hpos : 0 < s1.length := List.length_pos.mpr hne
    simp only [readLineAt, hdrop, hmem, hlen]
    have hoff : ¬ (pre.length + s1.length < pre.length + s1.length) := by omega
    rw [if_neg (by omega)]
    rw [if_neg (by rw [hget]; intro hc; exact hcr hc.2)]
    rw [if_neg hoff]
    rw [hslice]
  · intro pre s1 hnl
    have hassoc : pre ++ s1 ++ ['\r'] = pre ++ (s1 ++ ['\r']) := by simp
    have hdrop : (pre ++ (s1 ++ ['\r'])).drop pre.length = s1 ++ ['\r'] := List.drop_left _ _
    have hnl' : '\n' ∉ s1 ++ ['\r'] := by
      intro hm
      rcases List.mem_append.mp hm with h1 | h1
      · exact hnl h1
      · simp at h1
    have hmem : memchr '\n' (s1 ++ ['\r']) = none := memchr_eq_none_of_not_mem hnl'
    have hlen : (pre ++ (s1 ++ ['\r'])).length = pre.length + s1.length + 1 := by simp; omega
    have hget : (pre ++ (s1 ++ ['\r'])).get? (pre.length + s1.length + 1 - 1) = some '\r' := by
      rw [List.get?_eq_getElem?]
      have := getElem?_middle_last pre (s1 ++ ['\r']) [] (by simp)
      simpa using this
    have hslice : sliceB (pre ++ (s1 ++ ['\r'])) pre.length (pre.length + s1.length) = s1 := by
      have := sliceB_middle pre s1 ['\r']
      simpa using this
    rw [hassoc]
    simp only [readLineAt, hdrop, hmem, hlen]
    have hcond : pre.length + s1.length + 1 > pre.length
        ∧ (pre ++ (s1 ++ ['\r'])).get? (pre.length + s1.length + 1 - 1) = some '\r' :=
      ⟨by omega, hget⟩
    have hoff : ¬ (pre.length + s1.length + 1 < pre.length + s1.length + 1) := by omega
    rw [if_neg (by omega)]
    rw [if_pos hcond]
    rw [if_neg hoff]
    rw [show pre.length + s1.length + 1 - 1 = pre.length + s1.length from by omega, hslice]

/-- Witness for the amended C5, instantiating the CRLF conjunct at a
concrete input. -/
theorem C5_amended_line_terminators_witness :
    readLineAt ("ab\r\nc".data) 0
      = some ({ text := "ab".data, span := Span.new 0 2 }, 4) := by
  have h := C5_amended_line_terminators.2.1 [] ("ab".data) ("c".data) (by decide)
  simpa using h

theorem emphSearchGo_conditions : ∀ (fuel : Nat) (bytes : List Char) (cs sp absPos : Nat),
    emphSearchGo bytes cs fuel sp = some absPos →
    cs < absPos ∧ bytes.get? (absPos - 1) ≠ some ' ' := by
  intro fuel
  induction fuel with
  | zero => intro bytes cs sp absPos h; simp [emphSearchGo] at h
  | succ fuel ih =>
    intro bytes cs sp absPos h
    simp only [emphSearchGo] at h
    cases hm : memchr '*' (bytes.drop (cs + sp)) with
    | none => rw [hm] at h; simp at h
    | some offset =>
      rw [hm] at h
      simp only at h
      by_cases h1 : cs + sp + offset + 1 < bytes.length
          ∧ bytes.get? (cs + sp + offset + 1) = some '*'
      · rw [if_pos h1] at h
        exact ih bytes cs _ absPos h
      · rw [if_neg h1] at h
        by_cases h2 : cs + sp + offset > cs ∧ bytes.get? (cs + sp + offset - 1) ≠ some ' '
        · rw [if_pos h2] at h
          have hinj : cs + sp + offset = absPos := by
            injection h
          subst hinj
          exact ⟨h2.1, h2.2⟩
        · rw [if_neg h2] at h
          exact ih bytes cs _ absPos h

/-- C6 confirmed: a single-asterisk emphasis match requires the byte
immediately after the opening `*` to exist and not be a space, the
content to be non-empty, and the byte immediately before the closing
`*` not to be a space (first conjunct, about the only code path that
builds an `Emphasis` node); consequently `"*foo*"` parses to an
`Emphasis` node while `"* foo*"` and `"*foo *"` stay plain text (the
three evaluation conjuncts). -/
theorem C6_emphasis_boundary_rules :
    (∀ (bytes : List Char) (pos absPos : Nat), tryEmphFind bytes pos = some absPos →
        pos + 1 < bytes.length ∧ bytes.get? (pos + 1) ≠ some ' '
        ∧ pos + 1 < absPos ∧ bytes.get? (absPos - 1) ≠ some ' ')
    ∧ parse_inlines ("*foo*".data) 0
        = [.emphasis [.text ("foo".data) (Span.new 1 4)] (Span.new 0 5)]
    ∧ parse_inlines ("* foo*".data) 0 = [.text ("* foo*".data) (Span.new 0 6)]
    ∧ parse_inlines ("*foo *".data) 0 = [.text ("*foo *".data) (Span.new 0 6)] := by
  refine ⟨?_, rfl, rfl, rfl⟩
  intro bytes pos absPos h
  unfold tryEmphFind at h
  by_cases hg : pos + 1 ≥ bytes.length ∨ bytes.get? (pos + 1) = some ' '
  · rw [if_pos hg] at h; simp at h
  · rw [if_neg hg] at h
    push_neg at hg
    have hs := emphSearchGo_conditions (bytes.length + 1) bytes (pos + 1) 0 absPos h
    exact ⟨hg.1, hg.2, hs.1, hs.2⟩

/-- Witness for C6, instantiating the boundary-condition conjunct at
the successful emphasis match in `"*a*"`. -/
theorem C6_emphasis_boundary_rules_witness :
    0 + 1 < ("*a*".data).length ∧ ("*a*".data).get? (0 + 1) ≠ some ' '
    ∧ 0 + 1 < 2 ∧ ("*a*".data).get? (2 - 1) ≠ some ' ' :=
  C6_emphasis_boundary_rules.1 ("*a*".data) 0 2 rfl

theorem tableLoop_acc_nonempty : ∀ (lines : List Line) (input : List Char) (ss : Span)
    (found : Bool) (acc : List TableRow) (es : Span),
    acc ≠ [] →
    ∃ new, (tableLoop input ss lines found acc es).1 = acc ++ new
      ∧ ∀ r ∈ new, r.header = false := by
  intro lines
  induction lines with
  | nil =>
    intro input ss found acc es hne
    exact ⟨[], by simp [tableLoop], by simp⟩
  | cons ln rest ih =>
    intro input ss found acc es hne
    by_cases c1 : trim (sliceB input ln.span.start ln.span.stop) = dcolon
    · refine ⟨[], ?_, by simp⟩
      simp [tableLoop, c1]
    · by_cases c2 : beginsWith (trim (sliceB input ln.span.start ln.span.stop)) ("|".data)
          ∧ containsSub (trim (sliceB input ln.span.start ln.span.stop)) hrMark
      · have hstep : (tableLoop input ss (ln :: rest) found acc es).1
            = (tableLoop input ss rest true acc ln.span).1 := by
          simp [tableLoop, c1, c2]
        rw [hstep]
        exact ih input ss true acc ln.span hne
      · by_cases c3 : beginsWith (trim (sliceB input ln.span.start ln.span.stop)) ("|".data)
        · have c2' : ¬ (containsSub (trim (sliceB input ln.span.start ln.span.stop)) hrMark = true) :=
            fun hc => c2 ⟨c3, hc⟩
          have hhd : (!found && acc.isEmpty) = false := by
            cases acc with
            | nil => simp at hne
            | cons a l => simp
          have hstep : (tableLoop input ss (ln :: rest) found acc es).1
              = (tableLoop input ss rest found
                  (acc ++ [(⟨parse_table_row
                      (trim (sliceB input ln.span.start ln.span.stop)) ln.span.start,
                    !found && acc.isEmpty, ln.span⟩ : TableRow)]) ln.span).1 := by
            simp [tableLoop, c1, c2, c2', c3]
          rw [hstep]
          obtain ⟨new', hnew', hall⟩ := ih input ss found
            (acc ++ [(⟨parse_table_row
                (trim (sliceB input ln.span.start ln.span.stop)) ln.span.start,
              !found && acc.isEmpty, ln.span⟩ : TableRow)]) ln.span (by simp)
          refine ⟨(⟨parse_table_row
                (trim (sliceB input ln.span.start ln.span.stop)) ln.span.start,
              !found && acc.isEmpty, ln.span⟩ : TableRow) :: new', by simpa using hnew', ?_⟩
          intro r hr
          rcases List.mem_cons.mp hr with h1 | h1
          · rw [h1]; exact hhd
          · exact hall r h1
        · refine ⟨[], ?_, by simp⟩
          simp [tableLoop, c1, c2, c3]

theorem tableLoop_found_all_false : ∀ (lines : List Line) (input : List Char) (ss : Span)
    (es : Span), ∀ r ∈ (tableLoop input ss lines true [] es).1, r.header = false := by
  intro lines
  induction lines with
  | nil => intro input ss es r hr; simp [tableLoop] at hr
  | cons ln rest ih =>
    intro input ss es r hr
    by_cases c1 : trim (sliceB input ln.span.start ln.span.stop) = dcolon
    · simp [tableLoop, c1] at hr
    · by_cases c2 : beginsWith (trim (sliceB input ln.span.start ln.span.stop)) ("|".data)
          ∧ containsSub (trim (sliceB input ln.span.start ln.span.stop)) hrMark
      · have hstep : (tableLoop input ss (ln :: rest) true [] es).1
            = (tableLoop input ss rest true [] ln.span).1 := by
          simp [tableLoop, c1, c2]
        rw [hstep] at hr
        exact ih input ss ln.span r hr
      · by_cases c3 : beginsWith (trim (sliceB input ln.span.start ln.span.stop)) ("|".data)
        · have c2' : ¬ (containsSub (trim (sliceB input ln.span.start ln.span.stop)) hrMark = true) :=
            fun hc => c2 ⟨c3, hc⟩
          have hstep : (tableLoop input ss (ln :: rest) true [] es).1
              = (tableLoop input ss rest true
                  ([(⟨parse_table_row
                      (trim (sliceB input ln.span.start ln.span.stop)) ln.span.start,
                    false, ln.span⟩ : TableRow)]) ln.span).1 := by
            simp [tableLoop, c1, c2, c2', c3]
          rw [hstep] at hr
          obtain ⟨new', hnew', hall⟩ := tableLoop_acc_nonempty rest input ss true
            ([(⟨parse_table_row
                (trim (sliceB input ln.span.start ln.span.stop)) ln.span.start,
              false, ln.span⟩ : TableRow)]) ln.span (by simp)
          rw [hnew'] at hr
          rcases List.mem_append.mp hr with h1 | h1
          · simp at h1; rw [h1]
          · exact hall r h1
        · simp [tableLoop, c1, c2, c3] at hr

/-- C7 confirmed: in a parsed `::table` block, a row's header flag is
true exactly when it is the first row and no separator line precedes
it in the table body (equivalently, the first body line is not a
separator — every line consumed before the first row is a separator). -/
theorem C7_table_header_flag (input : List Char) (l : Line) (rest : List Line)
    (rows : List TableRow) (sp : Span) (rest' : List Line) (errs : List ParseError)
    (h : parse_table_block input l rest = (.table rows sp, rest', errs)) :
    ∀ (i : Nat) (r : TableRow), rows.get? i = some r →
      (r.header = true ↔ (i = 0 ∧ firstTableBodyLineIsSep input rest = false)) := by
  have hrows : rows = (tableLoop input l.span rest false [] l.span).1 := by
    rcases hloop : tableLoop input l.span rest false [] l.span with ⟨rows0, es0, rest0, errs0⟩
    unfold parse_table_block at h
    rw [hloop] at h
    simp only [Prod.mk.injEq, Block.table.injEq] at h
    exact h.1.1.symm
  subst hrows
  cases rest with
  | nil =>
    intro i r hr
    simp [tableLoop] at hr
  | cons ln rest2 =>
    by_cases c1 : trim (sliceB input ln.span.start ln.span.stop) = dcolon
    · intro i r hr
      simp [tableLoop, c1] at hr
    · by_cases c2 : beginsWith (trim (sliceB input ln.span.start ln.span.stop)) ("|".data)
          ∧ containsSub (trim (sliceB input ln.span.start ln.span.stop)) hrMark
      · have hstep : (tableLoop input l.span (ln :: rest2) false [] l.span).1
            = (tableLoop input l.span rest2 true [] ln.span).1 := by
          simp [tableLoop, c1, c2]
        have hsep : firstTableBodyLineIsSep input (ln :: rest2) = true := by
          simp [firstTableBodyLineIsSep, c1, c2]
        intro i r hr
        rw [hstep] at hr
        have hfalse := tableLoop_found_all_false rest2 input l.span ln.span r
          (List.get?_mem hr)
        rw [hsep]
        constructor
        · intro hh
          rw [hfalse] at hh
          exact absurd hh (by simp)
        · intro hcon
          exact absurd hcon.2 (by simp)
      · by_cases c3 : beginsWith (trim (sliceB input ln.span.start ln.span.stop)) ("|".data)
        · have c2' : ¬ (containsSub (trim (sliceB input ln.span.start ln.span.stop)) hrMark
              = true) := fun hc => c2 ⟨c3, hc⟩
          have hstep : (tableLoop input l.span (ln :: rest2) false [] l.span).1
              = (tableLoop input l.span rest2 false
                  ([(⟨parse_table_row
                      (trim (sliceB input ln.span.start ln.span.stop)) ln.span.start,
                    true, ln.span⟩ : TableRow)]) ln.span).1 := by
            simp [tableLoop, c1, c2, c2', c3]
          have hsep : firstTableBodyLineIsSep input (ln :: rest2) = false := by
            simp [firstTableBodyLineIsSep, c1, c2, c2', c3]
          obtain ⟨new, hnew, hall⟩ := tableLoop_acc_nonempty rest2 input l.span false
            ([(⟨parse_table_row
                (trim (sliceB input ln.span.start ln.span.stop)) ln.span.start,
              true, ln.span⟩ : TableRow)]) ln.span (by simp)
          intro i r hr
          rw [hstep, hnew] at hr
          rw [hsep]
          cases i with
          | zero =>
            simp only [List.singleton_append, List.get?_cons_zero, Option.some.injEq] at hr
            rw [← hr]
            simp
          | succ j =>
            have hj : (((⟨parse_table_row
                  (trim (sliceB input ln.span.start ln.span.stop)) ln.span.start,
                true, ln.span⟩ : TableRow) :: new)).get? (j + 1) = new.get? j := by
              simp
            rw [List.singleton_append, hj] at hr
            have hf := hall r (List.get?_mem hr)
            rw [hf]
            simp
        · intro i r hr
          simp [tableLoop, c1, c2, c3] at hr

/-- Witness for C7, instantiating it at a one-row table whose single
row carries the header flag. -/
theorem C7_table_header_flag_witness :
    (⟨[⟨[.text ("a".data) (Span.new 9 10)], Span.new 9 12⟩], true,
        Span.new 8 13⟩ : TableRow).header = true
      ↔ (0 = 0 ∧ firstTableBodyLineIsSep ("::table\n| a |\n::".data)
          [⟨"| a |".data, Span.new 8 13⟩, ⟨"::".data, Span.new 14 16⟩] = false) :=
  C7_table_header_flag ("::table\n| a |\n::".data)
    ⟨"::table".data, Span.new 0 7⟩
    [⟨"| a |".data, Span.new 8 13⟩, ⟨"::".data, Span.new 14 16⟩]
    [⟨[⟨[.text ("a".data) (Span.new 9 10)], Span.new 9 12⟩], true, Span.new 8 13⟩]
    (Span.new 0 16) [] [] rfl 0
    ⟨[⟨[.text ("a".data) (Span.new 9 10)], Span.new 9 12⟩], true, Span.new 8 13⟩ rfl

theorem untilFenceClose_tail_no_blocks (input : List Char) : ∀ (tail : List Line)
    (ps : Option Nat) (pe : Nat) (es : Span),
    (∀ ln ∈ tail, ln.trimmed ≠ dcolon ∧ ln.is_blank = false) →
    (untilFenceCloseGo input tail ps pe es).1 = [] := by
  intro tail
  induction tail with
  | nil => intro ps pe es _; simp [untilFenceCloseGo]
  | cons ln rest ih =>
    intro ps pe es h
    have h1 := h ln (by simp)
    simp only [untilFenceCloseGo]
    rw [if_neg h1.1]
    rw [if_neg (by simp [h1.2])]
    exact ih _ _ _ (fun x hx => h x (by simp [hx]))

theorem untilFenceClose_append_nonblank_tail (input : List Char) : ∀ (body tail : List Line)
    (ps : Option Nat) (pe : Nat) (es : Span),
    (∀ ln ∈ body, ln.trimmed ≠ dcolon) →
    (∀ ln ∈ tail, ln.trimmed ≠ dcolon ∧ ln.is_blank = false) →
    (untilFenceCloseGo input (body ++ tail) ps pe es).1
      = (untilFenceCloseGo input body ps pe es).1 := by
  intro body
  induction body with
  | nil =>
    intro tail ps pe es _ ht
    simp only [List.nil_append]
    rw [untilFenceClose_tail_no_blocks input tail ps pe es ht]
    simp [untilFenceCloseGo]
  | cons ln rest ih =>
    intro tail ps pe es hb ht
    have h1 : ln.trimmed ≠ dcolon := hb ln (by simp)
    have hbrest : ∀ x ∈ rest, x.trimmed ≠ dcolon := fun x hx => hb x (by simp [hx])
    by_cases hbl : ln.is_blank
    · rcases hA : untilFenceCloseGo input (rest ++ tail) none pe ln.span with ⟨bsA, eA, rA⟩
      rcases hB : untilFenceCloseGo input rest none pe ln.span with ⟨bsB, eB, rB⟩
      have hAB : bsA = bsB := by
        have hih := ih tail none pe ln.span hbrest ht
        rw [hA, hB] at hih
        exact hih
      simp [untilFenceCloseGo, h1, hbl, hA, hB, hAB]
    · have hstepL : untilFenceCloseGo input ((ln :: rest) ++ tail) ps pe es
          = untilFenceCloseGo input (rest ++ tail)
              (if ps = none then some ln.span.start else ps) ln.span.stop ln.span := by
        simp only [List.cons_append, untilFenceCloseGo]
        rw [if_neg h1, if_neg (by simp [hbl])]
        rfl
      have hstepR : untilFenceCloseGo input (ln :: rest) ps pe es
          = untilFenceCloseGo input rest
              (if ps = none then some ln.span.start else ps) ln.span.stop ln.span := by
        simp only [untilFenceCloseGo]
        rw [if_neg h1, if_neg (by simp [hbl])]
      rw [hstepL, hstepR]
      exact ih tail _ ln.span.stop ln.span hbrest ht

/-- C8 confirmed: when a `::callout` or `::quote` fence is never closed
before end of input, the trailing non-blank lines (the pending
paragraph at EOF) contribute no Paragraph block — the until-fence-close
loop breaks at end of input before its flush — and the callout/quote
handlers record no error of any kind.  Conjuncts: (1) appending a
trailing non-blank, closer-free run of lines to a closer-free body
leaves the produced block list unchanged; (2) the `::callout` /
`::quote` dispatch emits an empty error list; (3) a concrete
evaluation: `"x\n::callout\nbody"` parses to a paragraph plus a callout
with no body blocks, and the error list is empty. -/
theorem C8_unclosed_callout_pending_paragraph_dropped :
    (∀ (input : List Char) (body tail : List Line) (ps : Option Nat) (pe : Nat) (es : Span),
        (∀ ln ∈ body, ln.trimmed ≠ dcolon) →
        (∀ ln ∈ tail, ln.trimmed ≠ dcolon ∧ ln.is_blank = false) →
        (untilFenceCloseGo input (body ++ tail) ps pe es).1
          = (untilFenceCloseGo input body ps pe es).1)
    ∧ (∀ (input : List Char) (recover : Bool) (modules : List Module)
          (l : Line) (rest : List Line) (ac : List Char),
        stripLead l.trimmed dcolon = some ac →
        (((splitWs ac).head?).getD [] = ("callout".data)
          ∨ ((splitWs ac).head?).getD [] = ("quote".data)) →
        (parse_fenced_block input recover modules l rest).2.2 = [])
    ∧ (parse_internal pLite ("x\n::callout\nbody".data)).map
        (fun r => (r.1.blocks.map Block.calloutParts?, r.2))
      = some ([none, some ("note".data, [])], []) := by
  refine ⟨?_, ?_, rfl⟩
  · intro input body tail ps pe es hb ht
    exact untilFenceClose_append_nonblank_tail input body tail ps pe es hb ht
  · intro input recover modules l rest ac hstrip hbt
    rcases hbt with hbt | hbt
    · simp only [parse_fenced_block, hstrip, hbt]
      simp [show ¬ (("callout".data : List Char) = ("list".data)) from by decide]
    · simp only [parse_fenced_block, hstrip, hbt]
      simp [show ¬ (("quote".data : List Char) = ("list".data)) from by decide,
        show ¬ (("quote".data : List Char) = ("callout".data)) from by decide]

/-- Witness for C8, instantiating the paragraph-dropping conjunct at a
single trailing non-blank line. -/
theorem C8_unclosed_callout_pending_paragraph_dropped_witness :
    (untilFenceCloseGo ("b".data) (([] : List Line) ++ [⟨"b".data, Span.new 0 1⟩])
        none 0 (Span.new 0 0)).1
      = (untilFenceCloseGo ("b".data) ([] : List Line) none 0 (Span.new 0 0)).1 :=
  C8_unclosed_callout_pending_paragraph_dropped.1 ("b".data) []
    [⟨"b".data, Span.new 0 1⟩] none 0 (Span.new 0 0)
    (by simp) (by decide)

theorem listLoop_errors_not_unknown (input : List Char) (ss : Span) : ∀ (lines : List Line)
    (items : List ListItem) (istart : Option Nat) (iend : Nat) (es lspan : Span),
    ∀ e ∈ (listLoop input ss lines items istart iend es lspan).2.2.2,
      e.kind ≠ ParseErrorKind.unknownDirective := by
  intro lines
  induction lines with
  | nil => intro items istart iend es lspan e he; simp [listLoop] at he
  | cons ln rest ih =>
    intro items istart iend es lspan e he
    simp only [listLoop] at he
    split at he
    · simp at he
    · split at he
      · exact ih _ _ _ _ _ e he
      · split at he
        · exact ih _ _ _ _ _ e he
        · split at he
          · exact ih _ _ _ _ _ e he
          · split at he
            · simp at he
              rw [he]
              simp [ParseError.unclosed_delimiter]
            · simp at he
              rw [he]
              simp [ParseError.invalid_syntax]

theorem tableLoop_errors_not_unknown (input : List Char) (ss : Span) : ∀ (lines : List Line)
    (found : Bool) (rows : List TableRow) (es : Span),
    ∀ e ∈ (tableLoop input ss lines found rows es).2.2.2,
      e.kind ≠ ParseErrorKind.unknownDirective := by
  intro lines
  induction lines with
  | nil => intro found rows es e he; simp [tableLoop] at he
  | cons ln rest ih =>
    intro found rows es e he
    simp only [tableLoop] at he
    split at he
    · simp at he
    · split at he
      · exact ih _ _ _ e he
      · split at he
        · exact ih _ _ _ e he
        · simp at he
          rw [he]
          simp [ParseError.unclosed_delimiter]

theorem htmlLoop_errors_not_unknown (ss : Span) : ∀ (lines : List Line) (ce : Nat) (es : Span),
    ∀ e ∈ (htmlLoop ss lines ce es).2.2.2,
      e.kind ≠ ParseErrorKind.unknownDirective := by
  intro lines
  induction lines with
  | nil =>
    intro ce es e he
    simp [htmlLoop] at he
    rw [he]
    simp [ParseError.unclosed_delimiter]
  | cons ln rest ih =>
    intro ce es e he
    simp only [htmlLoop] at he
    split at he
    · simp at he
    · exact ih _ _ e he

theorem filter_notUD_of_not_unknown (errs : List ParseError)
    (h : ∀ e ∈ errs, e.kind ≠ ParseErrorKind.unknownDirective) :
    errs.filter (fun e => !decide (e.kind = ParseErrorKind.unknownDirective)) = errs := by
  apply List.filter_eq_self.mpr
  intro a ha
  simpa using h a ha

theorem parse_list_block_errors (input : List Char) (l : Line) (rest : List Line) :
    ∀ e ∈ (parse_list_block input l rest).2.2, e.kind ≠ ParseErrorKind.unknownDirective := by
  intro e he
  unfold parse_list_block at he
  rcases hloop : listLoop input l.span rest [] none l.span.stop l.span l.span
    with ⟨items, es, rest', errs⟩
  rw [hloop] at he
  simp only at he
  exact listLoop_errors_not_unknown input l.span rest [] none l.span.stop l.span l.span e
    (by rw [hloop]; exact he)

theorem parse_table_block_errors (input : List Char) (l : Line) (rest : List Line) :
    ∀ e ∈ (parse_table_block input l rest).2.2, e.kind ≠ ParseErrorKind.unknownDirective := by
  intro e he
  unfold parse_table_block at he
  rcases hloop : tableLoop input l.span rest false [] l.span with ⟨rows, es, rest', errs⟩
  rw [hloop] at he
  simp only at he
  exact tableLoop_errors_not_unknown input l.span rest false [] l.span e
    (by rw [hloop]; exact he)

theorem parse_html_block_errors (input : List Char) (modules : List Module)
    (l : Line) (rest : List Line) :
    ∀ e ∈ (parse_html_block input modules l rest).2.2, e.kind ≠ ParseErrorKind.unknownDirective := by
  intro e he
  cases hmod : modules.contains Module.html with
  | false =>
    simp only [parse_html_block, hmod] at he
    rcases parse_raw_fenced_block input l rest with ⟨b, r⟩
    simp at he
  | true =>
    have hm : Module.html ∈ modules := by simpa using hmod
    simp [parse_html_block, hm] at he
    exact htmlLoop_errors_not_unknown l.span rest _ l.span e he

theorem parse_heading_errors (input : List Char) (l : Line) (rest : List Line) :
    (parse_heading input l rest).2.2 = [] := by
  simp only [parse_heading]
  split
  · rfl
  · split
    · rfl
    · rfl

theorem parse_paragraph_errors (input : List Char) (lines : List Line) :
    (parse_paragraph input lines).2.2 = [] := by
  unfold parse_paragraph
  rcases h : paraLoop lines none (Span.new 0 0) with ⟨ss, es, r⟩
  cases ss <;> simp

theorem parse_fenced_block_recover (input : List Char) (modules : List Module)
    (l : Line) (rest : List Line) :
    parse_fenced_block input false modules l rest
      = ((parse_fenced_block input true modules l rest).1,
         (parse_fenced_block input true modules l rest).2.1,
         (parse_fenced_block input true modules l rest).2.2.filter
           (fun e => decide (e.kind ≠ ParseErrorKind.unknownDirective))) := by
  unfold parse_fenced_block
  cases hstrip : stripLead l.trimmed dcolon with
  | none => simp
  | some ac =>
    simp only
    by_cases h1 : ((splitWs ac).head?).getD [] = ("list".data)
    · rcases hx : parse_list_block input l rest with ⟨b, r, errs⟩
      have hf := filter_notUD_of_not_unknown errs
        (fun e he => parse_list_block_errors input l rest e (by rw [hx]; exact he))
      simp [h1, hx, hf]
    · by_cases h2 : ((splitWs ac).head?).getD [] = ("callout".data)
      · rcases hx : parse_callout_block input l rest with ⟨b, r⟩
        simp [h1, h2, hx]
      · by_cases h3 : ((splitWs ac).head?).getD [] = ("quote".data)
        · rcases hx : parse_quote_block input l rest with ⟨b, r⟩
          simp [h1, h2, h3, hx]
        · by_cases h4 : ((splitWs ac).head?).getD [] = ("figure".data)
          · rcases hx : parse_figure_block input l rest with ⟨b, r⟩
            simp [h1, h2, h3, h4, hx]
          · by_cases h5 : ((splitWs ac).head?).getD [] = ("table".data)
            · rcases hx : parse_table_block input l rest with ⟨b, r, errs⟩
              have hf := filter_notUD_of_not_unknown errs
                (fun e he => parse_table_block_errors input l rest e (by rw [hx]; exact he))
              simp [h1, h2, h3, h4, h5, hx, hf]
            · by_cases h6 : ((splitWs ac).head?).getD [] = ("footnotes".data)
              · rcases hx : parse_footnotes_block input l rest with ⟨b, r⟩
                simp [h1, h2, h3, h4, h5, h6, hx]
              · by_cases h7 : ((splitWs ac).head?).getD [] = ("math".data)
                · rcases hx : parse_math_block input l rest with ⟨b, r⟩
                  simp [h1, h2, h3, h4, h5, h6, h7, hx]
                · by_cases h8 : ((splitWs ac).head?).getD [] = ("html".data)
                  · rcases hx : parse_html_block input modules l rest with ⟨b, r, errs⟩
                    have hf := filter_notUD_of_not_unknown errs
                      (fun e he => parse_html_block_errors input modules l rest e
                        (by rw [hx]; exact he))
                    simp [h1, h2, h3, h4, h5, h6, h7, h8, hx, hf]
                  · rcases hx : parse_raw_fenced_block input l rest with ⟨b, r⟩
                    by_cases h9 : ((splitWs ac).head?).getD [] = ([] : List Char)
                    · simp [h1, h2, h3, h4, h5, h6, h7, h8, h9, hx]
                    · simp [h1, h2, h3, h4, h5, h6, h7, h8, h9, hx,
                        ParseError.unknown_directive]

theorem parse_block_recover (input : List Char) (modules : List Module) (lines : List Line) :
    parse_block input false modules lines
      = ((parse_block input true modules lines).1,
         (parse_block input true modules lines).2.1,
         (parse_block input true modules lines).2.2.filter
           (fun e => decide (e.kind ≠ ParseErrorKind.unknownDirective))) := by
  cases lines with
  | nil => simp [parse_block]
  | cons l rest =>
    simp only [parse_block]
    by_cases c1 : l.trimmed.head? = some '#'
    · rcases hx : parse_heading input l rest with ⟨b, r, errs⟩
      have he : errs = [] := by
        have h0 := parse_heading_errors input l rest
        rw [hx] at h0
        exact h0
      simp [c1, hx, he]
    · by_cases c2 : l.trimmed.head? = some '`' ∧ beginsWith l.trimmed ticks
      · rcases hx : parse_code_block input l rest with ⟨b, r⟩
        simp [c1, c2, hx]
      · by_cases c3 : l.trimmed.head? = some '-' ∧ l.trimmed = hrMark
        · simp [c1, c2, c3, show ¬ ((hrMark : List Char).head? = some '#') from by decide,
            show ¬ ((hrMark : List Char).head? = some '`') from by decide,
            show ((hrMark : List Char).head? = some '-') from by decide]
        · by_cases c4 : l.trimmed.head? = some ':' ∧ beginsWith l.trimmed dcolon
          · simp [c1, c2, c3, c4, parse_fenced_block_recover input modules l rest]
          · rcases hx : parse_paragraph input (l :: rest) with ⟨b, r, errs⟩
            have he : errs = [] := by
              have h0 := parse_paragraph_errors input (l :: rest)
              rw [hx] at h0
              exact h0
            simp [c1, c2, c3, c4, hx, he]

theorem parse_blocks_recover (input : List Char) (modules : List Module) :
    ∀ (fuel : Nat) (lines : List Line),
    parse_blocks input false modules fuel lines
      = (parse_blocks input true modules fuel lines).map
          (fun r => (r.1,
            r.2.filter (fun e => decide (e.kind ≠ ParseErrorKind.unknownDirective)))) := by
  intro fuel
  induction fuel with
  | zero => intro lines; simp [parse_blocks]
  | succ fuel ih =>
    intro lines
    cases lines with
    | nil => simp [parse_blocks]
    | cons l ls =>
      simp only [parse_blocks]
      cases hdb : dropBlankLines (l :: ls) with
      | nil => simp
      | cons l1 ls1 =>
        dsimp only
        rcases hb : parse_block input true modules (l1 :: ls1) with ⟨b, rest, errs⟩
        have hb' : parse_block input false modules (l1 :: ls1)
            = (b, rest, errs.filter
                (fun e => decide (e.kind ≠ ParseErrorKind.unknownDirective))) := by
          rw [parse_block_recover, hb]
        rw [hb']
        dsimp only
        rw [ih rest]
        cases hrec : parse_blocks input true modules fuel rest with
        | none => simp
        | some p =>
          rcases p with ⟨bs, es⟩
          simp [List.filter_append]

theorem parse_internal_recover (profile : Profile) (input : List Char) :
    parse_internal ⟨profile, false⟩ input
      = (parse_internal ⟨profile, true⟩ input).map
          (fun r => (r.1,
            r.2.filter (fun e => decide (e.kind ≠ ParseErrorKind.unknownDirective)))) := by
  unfold parse_internal
  rcases hp : parse_profile_directive (dropBlankLines (linesOf input)) with ⟨profileOpt, lines1⟩
  simp only [hp]
  rcases hm : parse_modules_directive lines1 with ⟨modules, lines2⟩
  simp only [hm]
  rcases hmd : parse_metadata input (dropBlankLines lines2) with ⟨metadata, lines4⟩
  simp only [hmd]
  rw [parse_blocks_recover]
  cases parse_blocks input true modules
      ((dropBlankLines lines4).length + 1) (dropBlankLines lines4) with
  | none => simp
  | some p =>
    rcases p with ⟨blocks, errs⟩
    simp

/-- C9 confirmed: disabling recovery never stops parsing early and only
suppresses the recording of `UnknownDirective` errors.  Conjuncts: (1)
for every profile and input, parsing with recovery disabled yields the
same document (and the same divergence behaviour) as with recovery
enabled, with exactly the `UnknownDirective` errors removed from the
error list; (2) on an input whose only defect is an unknown `::name`
directive, `parse` with recovery disabled returns `Ok` with a single
`RawBlock`; (3) its error list is empty; (4) with recovery enabled the
same input makes `parse` return the `UnknownDirective` error; (5) an
unclosed-table `UnclosedDelimiter` error and (6) a list-item
`InvalidSyntax` error are still recorded with recovery disabled. -/
theorem C9_with_recovery_only_suppresses_unknown_directive :
    (∀ (profile : Profile) (input : List Char),
        parse_internal ⟨profile, false⟩ input
          = (parse_internal ⟨profile, true⟩ input).map
              (fun r => (r.1,
                r.2.filter (fun e => decide (e.kind ≠ ParseErrorKind.unknownDirective)))))
    ∧ (Parser.parse (pLite.with_recovery false) ("::unknown\nhi\n::".data)).map
        (fun r => r.toOption.map (fun d => d.blocks.map Block.rawContent?))
      = some (some [some ("hi".data)])
    ∧ (Parser.parse_with_recovery (pLite.with_recovery false) ("::unknown\nhi\n::".data)).map
        (fun r => r.2) = some []
    ∧ Parser.parse pLite ("::unknown\nhi\n::".data)
      = some (.error (ParseError.unknown_directive ("unknown".data) (some (Span.new 0 9))))
    ∧ (Parser.parse_with_recovery (pLite.with_recovery false) ("::table\nx".data)).map
        (fun r => r.2)
      = some [ParseError.unclosed_delimiter ("::table".data) (some (Span.new 0 7))]
    ∧ (Parser.parse_with_recovery (pLite.with_recovery false) ("::list\nx y".data)).map
        (fun r => r.2)
      = some [ParseError.invalid_syntax ("list item".data) (some (Span.new 7 10))] :=
  ⟨parse_internal_recover, rfl, rfl, rfl, rfl, rfl⟩

theorem memchr_lt_length {c : Char} : ∀ {l : List Char} {i : Nat},
    memchr c l = some i → i < l.length := by
  intro l
  induction l with
  | nil => intro i h; simp [memchr] at h
  | cons b rest ih =>
    intro i h
    simp only [memchr] at h
    by_cases hb : b = c
    · rw [if_pos hb] at h
      cases h
      simp
    · rw [if_neg hb] at h
      cases hm : memchr c rest with
      | none => rw [hm] at h; simp at h
      | some j =>
        rw [hm] at h
        simp only [Option.map_some'] at h
        cases h
        have := ih hm
        simp
        omega

theorem readLineAt_eq_none {input : List Char} {o : Nat} :
    readLineAt input o = none ↔ input.length ≤ o := by
  constructor
  · intro h
    by_contra hlt
    push_neg at hlt
    have hcond : ¬ (o ≥ input.length) := by omega
    simp [readLineAt, hcond] at h
  · intro h
    have hcond : o ≥ input.length := h
    simp [readLineAt, hcond]

theorem readLineAt_bounds : ∀ {input : List Char} {o : Nat} {l : Line} {o' : Nat},
    readLineAt input o = some (l, o') →
    l.span.start ≤ l.span.stop ∧ l.span.stop ≤ input.length
      ∧ o < o' ∧ o' ≤ input.length := by
  intro input o l o' h
  by_cases ho : o ≥ input.length
  · simp [readLineAt, ho] at h
  · simp only [readLineAt, ho, if_false] at h
    cases hm : memchr '\n' (input.drop o) with
    | none =>
      rw [hm] at h
      simp only [Option.some.injEq, Prod.mk.injEq] at h
      obtain ⟨hl, ho'⟩ := h
      subst hl
      have hlt : ¬ (input.length < input.length) := by omega
      rw [if_neg hlt] at ho'
      subst ho'
      by_cases hcr : input.length > o ∧ input.get? (input.length - 1) = some '\r'
      · have hgt := hcr.1
        rw [if_pos hcr]
        exact ⟨show o ≤ input.length - 1 by omega,
          show input.length - 1 ≤ input.length by omega,
          show o < input.length by omega, le_refl _⟩
      · rw [if_neg hcr]
        exact ⟨show o ≤ input.length by omega, le_refl _,
          show o < input.length by omega, le_refl _⟩
    | some pos =>
      rw [hm] at h
      have hpos := memchr_lt_length hm
      rw [List.length_drop] at hpos
      have he : o + pos < input.length := by omega
      simp only [Option.some.injEq, Prod.mk.injEq] at h
      obtain ⟨hl, ho'⟩ := h
      subst hl
      rw [if_pos he] at ho'
      subst ho'
      by_cases hcr : o + pos > o ∧ input.get? (o + pos - 1) = some '\r'
      · have hgt := hcr.1
        rw [if_pos hcr]
        exact ⟨show o ≤ o + pos - 1 by omega,
          show o + pos - 1 ≤ input.length by omega,
          show o < o + pos + 1 by omega,
          show o + pos + 1 ≤ input.length by omega⟩
      · rw [if_neg hcr]
        exact ⟨show o ≤ o + pos by omega,
          show o + pos ≤ input.length by omega,
          show o < o + pos + 1 by omega,
          show o + pos + 1 ≤ input.length by omega⟩

theorem next_line_advances {lx : Lexer} {l : Line} {lx' : Lexer}
    (hp : lx.peeked = none) (h : lx.next_line = (some l, lx')) :
    lx.offset < lx'.offset ∧ lx'.offset ≤ lx.input.length := by
  rcases lx with ⟨inp, off, pk⟩
  dsimp only at hp
  subst hp
  dsimp only [Lexer.next_line, Lexer.read_line] at h
  cases hr : readLineAt inp off with
  | none => rw [hr] at h; exact absurd h (by simp)
  | some p =>
    rcases p with ⟨l0, o0⟩
    rw [hr] at h
    dsimp only at h
    have h2 : lx' = ⟨inp, o0, none⟩ := (congrArg Prod.snd h).symm
    subst h2
    have hb := readLineAt_bounds hr
    exact ⟨hb.2.2.1, hb.2.2.2⟩

theorem skipNext_invariant : ∀ (n : Nat) (inp : List Char) (off : Nat),
    (skipNext n ⟨inp, off, none⟩).peeked = none
      ∧ (skipNext n ⟨inp, off, none⟩).input = inp
      ∧ min (off + n) inp.length ≤ (skipNext n ⟨inp, off, none⟩).offset := by
  intro n
  induction n with
  | zero =>
    intro inp off
    refine ⟨rfl, rfl, ?_⟩
    simp [skipNext]
  | succ n ih =>
    intro inp off
    have hstep : skipNext (n + 1) (⟨inp, off, none⟩ : Lexer)
        = skipNext n ((Lexer.next_line ⟨inp, off, none⟩).2) := rfl
    cases hr : readLineAt inp off with
    | none =>
      have hle : inp.length ≤ off := readLineAt_eq_none.mp hr
      have hnl : (Lexer.next_line ⟨inp, off, none⟩).2 = ⟨inp, off, none⟩ := by
        dsimp only [Lexer.next_line, Lexer.read_line]
        rw [hr]
      rw [hstep, hnl]
      obtain ⟨a, b, c⟩ := ih inp off
      exact ⟨a, b, by omega⟩
    | some p =>
      rcases p with ⟨l0, o0⟩
      have hb := readLineAt_bounds hr
      have hnl : (Lexer.next_line ⟨inp, off, none⟩).2 = ⟨inp, o0, none⟩ := by
        dsimp only [Lexer.next_line, Lexer.read_line]
        rw [hr]
      rw [hstep, hnl]
      obtain ⟨a, b, c⟩ := ih inp o0
      refine ⟨a, b, ?_⟩
      have h1 : off < o0 := hb.2.2.1
      have h2 : o0 ≤ inp.length := hb.2.2.2
      omega

theorem lexer_exhaustion (input : List Char) :
    ((skipNext input.length (Lexer.new input)).next_line).1 = none := by
  obtain ⟨a, b, c⟩ := skipNext_invariant input.length input 0
  show ((skipNext input.length (⟨input, 0, none⟩ : Lexer)).next_line).1 = none
  rcases hsk : skipNext input.length (⟨input, 0, none⟩ : Lexer) with ⟨inp', off', pk'⟩
  rw [hsk] at a b c
  have a' : pk' = none := a
  have b' : inp' = input := b
  have c' : min (0 + input.length) input.length ≤ off' := c
  subst a'
  subst b'
  dsimp only [Lexer.next_line, Lexer.read_line]
  have hnone : readLineAt inp' off' = none := readLineAt_eq_none.mpr (by omega)
  rw [hnone]

theorem parse_blocks_colon_x_diverges (recover : Bool) (modules : List Module) :
    ∀ fuel : Nat, parse_blocks (":x".data) recover modules fuel
        [⟨":x".data, Span.new 0 2⟩] = none := by
  intro fuel
  induction fuel with
  | zero => rfl
  | succ fuel ih =>
    have hstep : parse_blocks (":x".data) recover modules (fuel + 1)
          [⟨":x".data, Span.new 0 2⟩]
        = match parse_blocks (":x".data) recover modules fuel
              [⟨":x".data, Span.new 0 2⟩] with
          | none => none
          | some (bs, es) => some (([] : List Block) ++ bs, ([] : List ParseError) ++ es) := rfl
    rw [hstep, ih]

/-- C10 corrected.  What holds: (1) a successful `next_line` with no
pending peeked line strictly increases the offset, which stays within
the input length; (2) a `next_line` after a peek returns the peeked
line and only clears the peek cache — the offset was already advanced
by the peek, so this call leaves it unchanged; (3) every line read by
`read_line` has `span.start ≤ span.end ≤ input.len()` and strictly
advances the offset; (4) from a fresh lexer, after at most
`input.len()` calls `next_line` returns `None`.  What does not hold is
the claim's conclusion that every parse terminates: (5) on the input
`":x"` (trimmed line starts with `:` but not `::`) `parse_block`
dispatches to `parse_paragraph`, which breaks immediately without
consuming the peeked line, so `is_eof` stays false and the
`parse_blocks` loop never terminates — the fuelled model returns
`none` for every fuel; (6) hence the whole parse of `":x"` diverges. -/
theorem C10_amended_lexer_progress_but_parser_divergence :
    (∀ (lx : Lexer) (l : Line) (lx' : Lexer), lx.peeked = none →
        lx.next_line = (some l, lx') →
          lx.offset < lx'.offset ∧ lx'.offset ≤ lx.input.length)
    ∧ (∀ (lx : Lexer) (l : Line), lx.peeked = some l →
        lx.next_line = (some l, { lx with peeked := none }))
    ∧ (∀ (input : List Char) (o : Nat) (l : Line) (o' : Nat),
        readLineAt input o = some (l, o') →
          l.span.start ≤ l.span.stop ∧ l.span.stop ≤ input.length ∧ o < o')
    ∧ (∀ input : List Char,
        ((skipNext input.length (Lexer.new input)).next_line).1 = none)
    ∧ (∀ (recover : Bool) (modules : List Module) (fuel : Nat),
        parse_blocks (":x".data) recover modules fuel (linesOf (":x".data)) = none)
    ∧ parse_internal pLite (":x".data) = none :=
  ⟨fun _ _ _ hp h => next_line_advances hp h,
   fun lx l hp => by
     rcases lx with ⟨inp, off, pk⟩
     dsimp only at hp
     subst hp
     rfl,
   fun _ _ _ _ h =>
     ⟨(readLineAt_bounds h).1, (readLineAt_bounds h).2.1, (readLineAt_bounds h).2.2.1⟩,
   lexer_exhaustion,
   fun recover modules fuel => parse_blocks_colon_x_diverges recover modules fuel,
   rfl⟩

/-- Closed-instance witness for the amended C10 theorem: its three
hypothetical conjuncts applied at concrete lexer states on the inputs
`"a"` and `"ab"`. -/
theorem C10_amended_lexer_progress_but_parser_divergence_witness :
    ((Lexer.new ("a".data)).offset < (⟨"a".data, 1, none⟩ : Lexer).offset
      ∧ (⟨"a".data, 1, none⟩ : Lexer).offset ≤ (Lexer.new ("a".data)).input.length)
    ∧ (⟨"ab".data, 2, some ⟨"ab".data, Span.new 0 2⟩⟩ : Lexer).next_line
        = (some (⟨"ab".data, Span.new 0 2⟩ : Line),
           { (⟨"ab".data, 2, some (⟨"ab".data, Span.new 0 2⟩ : Line)⟩ : Lexer) with
               peeked := none })
    ∧ ((⟨"a".data, Span.new 0 1⟩ : Line).span.start
        ≤ (⟨"a".data, Span.new 0 1⟩ : Line).span.stop
      ∧ (⟨"a".data, Span.new 0 1⟩ : Line).span.stop ≤ ("a".data).length ∧ 0 < 1) :=
  ⟨C10_amended_lexer_progress_but_parser_divergence.1 (Lexer.new ("a".data))
      ⟨"a".data, Span.new 0 1⟩ ⟨"a".data, 1, none⟩ rfl rfl,
   C10_amended_lexer_progress_but_parser_divergence.2.1
      ⟨"ab".data, 2, some ⟨"ab".data, Span.new 0 2⟩⟩ ⟨"ab".data, Span.new 0 2⟩ rfl,
   C10_amended_lexer_progress_but_parser_divergence.2.2.1 ("a".data) 0
      ⟨"a".data, Span.new 0 1⟩ 1 rfl⟩

end Litedoc
